import Mathlib

/-!
Verification development for the query-translation core of the `mongo-ts`
repository (`src/utils/parser.ts` and the method tables in
`src/types/index.ts`).

Strings are modelled as `List Char`.  Each definition mirrors one JavaScript
function of the source; index arithmetic of the source (`str[i]`, `slice`,
cursor updates) is rendered as `take`/`drop` on the suffix that starts at the
cursor, so that the number of characters consumed by a branch equals the
cursor advance of the source.  The scanning loops of the source advance the
cursor by at least one character per iteration, so running them with fuel
`length + 1` (one unit per iteration) never exhausts the fuel.
-/

namespace MongoTs

/-! ### Character classes

`isJsWs` models the JavaScript `\s` class and the `trim()` character set
(ASCII whitespace, NBSP and BOM; more exotic Unicode space code points are
not modelled — no input below contains them). -/

def isJsWs (c : Char) : Bool :=
  c = ' ' || c = '\t' || c = '\n' || c = '\r' || c = '\x0b' || c = '\x0c' ||
    c.toNat = 0xa0 || c.toNat = 0xfeff

/-- The JavaScript `\w` class: `[A-Za-z0-9_]`. -/
def isWordChar (c : Char) : Bool :=
  c.isAlpha || c.isDigit || c = '_'

/-- `^[0-9a-fA-F]$` — one hexadecimal digit. -/
def isHexCh (c : Char) : Bool :=
  c.isDigit || ('a' ≤ c && c ≤ 'f') || ('A' ≤ c && c ≤ 'F')

/-- Models `String.prototype.trim` (both ends). -/
def jsTrimRight (l : List Char) : List Char :=
  (l.reverse.dropWhile isJsWs).reverse

def jsTrim (l : List Char) : List Char :=
  jsTrimRight (l.dropWhile isJsWs)

/-- Models `String.prototype.toLowerCase` (ASCII range, which is all the
inputs below use). -/
def jsToLower (l : List Char) : List Char :=
  l.map Char.toLower

/-! ### `findClosingQuote` (parser.ts:262-275)

The source returns the index `end` of the closing quote (skipping a character
after every backslash) or `str.length - 1` when no closing quote exists.
Both call sites then resume scanning at `end + 1`.  `closeLen q rest` is the
corresponding suffix-relative quantity `end - start + 1` (the number of
characters consumed from the opening quote at `start`, inclusive of both
quotes), computed from the characters `rest` that follow the opening quote:
* `[]` — the opening quote is the last character: `end = start`, one char;
* a backslash skips itself and the following character (`i += 2`), even past
  the end of the input;
* the quote character ends the scan; anything else advances by one. -/

def closeLen (q : Char) : List Char → Nat
  | [] => 1
  | c :: rest =>
    if c = '\\' then
      match rest with
      | [] => 2
      | _ :: rest' => 2 + closeLen q rest'
    else if c = q then 2
    else 1 + closeLen q rest

/-- Models `content.replace(/"/g, '\\"')` (parser.ts:163). -/
def escapeDq : List Char → List Char
  | [] => []
  | c :: rest => (if c = '"' then ['\\', '"'] else [c]) ++ escapeDq rest

/-! ### `skipWhitespaceAndMatchKey` (parser.ts:215-236) -/

/-- The `\s*:` tail of the key regex `^(\$?\w+)\s*:`; `consumed` counts the
characters of the key match so far.  Returns the captured key together with
the total number of characters of the regex match. -/
def finishKey (key : List Char) (rest : List Char) (consumed : Nat) :
    Option (List Char × Nat) :=
  let ws2 := rest.takeWhile isJsWs
  match rest.drop ws2.length with
  | ':' :: _ => some (key, consumed + ws2.length + 1)
  | _ => none

/-- Models `str.slice(i).match(/^(\$?\w+)\s*:/)`: an optional `$`, then a
maximal nonempty run of word characters, then optional whitespace, then `:`.
(When the leading `$` is not followed by a word character no match exists,
because `$` itself is not a word character.) -/
def matchKeyColon (l : List Char) : Option (List Char × Nat) :=
  match l with
  | '$' :: r =>
    let w := r.takeWhile isWordChar
    if w = [] then none else finishKey ('$' :: w) (r.drop w.length) (w.length + 1)
  | _ =>
    let w := l.takeWhile isWordChar
    if w = [] then none else finishKey w (l.drop w.length) w.length

/-- `skipWhitespaceAndMatchKey`: emitted text and number of source characters
consumed.  A matched key is re-emitted as `"key":` (the whitespace between
the key and the colon is dropped, as in the source's `` `"${keyMatch[1]}":` ``). -/
def skipWhitespaceAndMatchKey (l : List Char) : List Char × Nat :=
  let ws := l.takeWhile isJsWs
  let after := l.drop ws.length
  match matchKeyColon after with
  | some (key, n) => (ws ++ '"' :: (key ++ '"' :: [':']), ws.length + n)
  | none => (ws, ws.length)

/-! ### `BSON_PATTERNS` / `tryMatchBson` (parser.ts:126-139, 242-257)

Each regex of `BSON_PATTERNS` is anchored (`^`); the patterns are decided
deterministically below (the only backtracking points of the originals —
the optional `new` prefix, the greedy character classes and the optional
quotes of `NumberInt` — cannot produce an alternative match, because the
character after a maximal run never matches the follow-up of a shorter run).
The replacement template's single `$1` is substituted by the capture; the
`$`-escape expansion JavaScript applies to replacement strings is not
modelled (it differs only for captures containing `$$`, `$&`, `` $` `` or
`$'`, which none of the statements below use). -/

def isQuoteCh (c : Char) : Bool := c = '"' || c = '\''

/-- `(?:new\s+)?`: `new` followed by at least one whitespace character;
returns the number of characters the prefix consumes. -/
def newPrefixLen (l : List Char) : Option Nat :=
  match l with
  | 'n' :: 'e' :: 'w' :: r =>
    let ws := r.takeWhile isJsWs
    if ws = [] then none else some (3 + ws.length)
  | _ => none

/-- `name\(["']([^"']+)["']\)` where `name(` is passed as `name`: used by the
ObjectId / ISODate / Date patterns.  Note the closing quote may differ from
the opening one, exactly as in the character class `["']`. -/
def matchQuotedArg (name : List Char) (l : List Char) : Option (List Char × Nat) :=
  if name.isPrefixOf l then
    match l.drop name.length with
    | q1 :: r =>
      if isQuoteCh q1 then
        let content := r.takeWhile (fun c => !isQuoteCh c)
        if content = [] then none
        else
          match r.drop content.length with
          | q2 :: ')' :: _ =>
            if isQuoteCh q2 then some (content, name.length + content.length + 3)
            else none
          | _ => none
      else none
    | [] => none
  else none

/-- `(-?\d+)` anchored: the signed-decimal lexeme and the rest. -/
def matchSignedDigits (l : List Char) : Option (List Char × List Char) :=
  match l with
  | c :: r =>
    if c = '-' then
      let ds := r.takeWhile Char.isDigit
      if ds = [] then none else some ('-' :: ds, r.drop ds.length)
    else
      let ds := (c :: r).takeWhile Char.isDigit
      if ds = [] then none else some (ds, (c :: r).drop ds.length)
  | [] => none

/-- `NumberLong\(["'](-?\d+)["']\)`. -/
def matchNumberLongQuoted (l : List Char) : Option (List Char × Nat) :=
  let name := "NumberLong(".toList
  if name.isPrefixOf l then
    match l.drop name.length with
    | q1 :: r =>
      if isQuoteCh q1 then
        match matchSignedDigits r with
        | some (num, r2) =>
          match r2 with
          | q2 :: ')' :: _ =>
            if isQuoteCh q2 then
              some ("\x7b\"$numberLong\":\"".toList ++ num ++ "\"\x7d".toList,
                name.length + num.length + 3)
            else none
          | _ => none
        | none => none
      else none
    | [] => none
  else none

/-- `NumberLong\((-?\d+)\)`. -/
def matchNumberLongBare (l : List Char) : Option (List Char × Nat) :=
  let name := "NumberLong(".toList
  if name.isPrefixOf l then
    match matchSignedDigits (l.drop name.length) with
    | some (num, r2) =>
      match r2 with
      | ')' :: _ =>
        some ("\x7b\"$numberLong\":\"".toList ++ num ++ "\"\x7d".toList,
          name.length + num.length + 1)
      | _ => none
    | none => none
  else none

/-- `NumberInt\(["']?(-?\d+)["']?\)` — the quotes are independently optional;
the replacement is the bare numeral `$1`. -/
def matchNumberInt (l : List Char) : Option (List Char × Nat) :=
  let name := "NumberInt(".toList
  if name.isPrefixOf l then
    let r0 := l.drop name.length
    let q1n : Nat := match r0 with
      | c :: _ => if isQuoteCh c then 1 else 0
      | [] => 0
    match matchSignedDigits (r0.drop q1n) with
    | some (num, r2) =>
      let q2n : Nat := match r2 with
        | c :: _ => if isQuoteCh c then 1 else 0
        | [] => 0
      match r2.drop q2n with
      | ')' :: _ => some (num, name.length + q1n + num.length + q2n + 1)
      | _ => none
    | none => none
  else none

def matchObjectIdCore (l : List Char) : Option (List Char × Nat) :=
  (matchQuotedArg ("ObjectId(".toList) l).map fun p =>
    ("\x7b\"$oid\":\"".toList ++ p.1 ++ "\"\x7d".toList, p.2)

def matchISODateCore (l : List Char) : Option (List Char × Nat) :=
  (matchQuotedArg ("ISODate(".toList) l).map fun p =>
    ("\x7b\"$date\":\"".toList ++ p.1 ++ "\"\x7d".toList, p.2)

def matchDateCore (l : List Char) : Option (List Char × Nat) :=
  (matchQuotedArg ("Date(".toList) l).map fun p =>
    ("\x7b\"$date\":\"".toList ++ p.1 ++ "\"\x7d".toList, p.2)

/-- Wraps a core pattern with the optional `(?:new\s+)?` prefix.  When the
prefix is present but the rest does not match, the regex engine retries with
the empty prefix at the original position. -/
def withNew (core : List Char → Option (List Char × Nat)) (l : List Char) :
    Option (List Char × Nat) :=
  match newPrefixLen l with
  | some n =>
    match core (l.drop n) with
    | some (rep, k) => some (rep, n + k)
    | none => core l
  | none => core l

/-- `tryMatchBson` (parser.ts:242-257): the patterns are tried in the order of
`BSON_PATTERNS`; the first match wins.  Returns `(replacement, consumed)`. -/
def tryMatchBson (l : List Char) : Option (List Char × Nat) :=
  withNew matchObjectIdCore l <|> withNew matchISODateCore l <|>
    withNew matchDateCore l <|> withNew matchNumberLongQuoted l <|>
    withNew matchNumberLongBare l <|> withNew matchNumberInt l

/-! ### `convertToJson` (parser.ts:147-209)

One fuel unit per loop iteration; every iteration consumes at least one input
character, so the fuel `s.length + 1` used by `convertToJson` is never
exhausted. -/

def ctjGo : Nat → List Char → List Char
  | 0, _ => []
  | _ + 1, [] => []
  | fuel + 1, c :: rest =>
    if c = '"' then
      -- double-quoted string: copied verbatim (parser.ts:153-158)
      let k := closeLen '"' rest
      (c :: rest).take k ++ ctjGo fuel ((c :: rest).drop k)
    else if c = '\'' then
      -- single-quoted string: re-emitted double-quoted (parser.ts:161-167)
      let k := closeLen '\'' rest
      let content := rest.take (k - 2)
      '"' :: (escapeDq content ++ '"' :: ctjGo fuel ((c :: rest).drop k))
    else if c = '{' then
      -- opening brace, then unquoted-key lookahead (parser.ts:170-177)
      let wk := skipWhitespaceAndMatchKey rest
      c :: (wk.1 ++ ctjGo fuel (rest.drop wk.2))
    else if c = ',' then
      -- comma: trailing-comma check, else key lookahead (parser.ts:180-194)
      let wsN := (rest.takeWhile isJsWs).length
      match rest.drop wsN with
      | b :: r2 =>
        if b = '}' || b = ']' then
          ctjGo fuel (b :: r2)
        else
          let wk := skipWhitespaceAndMatchKey rest
          c :: (wk.1 ++ ctjGo fuel (rest.drop wk.2))
      | [] =>
        let wk := skipWhitespaceAndMatchKey rest
        c :: (wk.1 ++ ctjGo fuel (rest.drop wk.2))
    else
      -- typed-literal attempt, then one-character fallback (parser.ts:197-205)
      match tryMatchBson (c :: rest) with
      | some (rep, consumed) => rep ++ ctjGo fuel ((c :: rest).drop consumed)
      | none => c :: ctjGo fuel rest

def convertToJson (s : List Char) : List Char :=
  ctjGo (s.length + 1) s

/-! ### Strict JSON values and `JSON.parse`

`JSON.parse` is the standards-conforming JSON grammar.  Numbers are modelled
exactly as rationals (the source receives IEEE doubles; every numeric literal
appearing below is small enough to be exact).  `\uXXXX` escapes are mapped
through `Char.ofNat` (surrogate pairs are not modelled; no input below uses
them). -/

inductive Json where
  | null
  | bool (b : Bool)
  | num (q : ℚ)
  | str (s : List Char)
  | arr (xs : List Json)
  | obj (kvs : List (List Char × Json))

/-- JSON insignificant whitespace: space, tab, line feed, carriage return. -/
def isJsonWs (c : Char) : Bool :=
  c = ' ' || c = '\t' || c = '\n' || c = '\r'

def skipJsonWs (l : List Char) : List Char := l.dropWhile isJsonWs

def hexVal? (c : Char) : Option Nat :=
  if c.isDigit then some (c.toNat - 48)
  else if 'a' ≤ c && c ≤ 'f' then some (c.toNat - 87)
  else if 'A' ≤ c && c ≤ 'F' then some (c.toNat - 55)
  else none

/-- Decodes the characters following a backslash: the decoded character and
the rest, or `none` for an illegal escape. -/
def escChar? : List Char → Option (Char × List Char)
  | '"' :: r => some ('"', r)
  | '\\' :: r => some ('\\', r)
  | '/' :: r => some ('/', r)
  | 'b' :: r => some ('\x08', r)
  | 'f' :: r => some ('\x0c', r)
  | 'n' :: r => some ('\n', r)
  | 'r' :: r => some ('\r', r)
  | 't' :: r => some ('\t', r)
  | 'u' :: h1 :: h2 :: h3 :: h4 :: r =>
    match hexVal? h1, hexVal? h2, hexVal? h3, hexVal? h4 with
    | some a, some b, some c', some d =>
      some (Char.ofNat (4096 * a + 256 * b + 16 * c' + d), r)
    | _, _, _, _ => none
  | _ => none

/-- One fuel unit per decoded character; every step consumes at least one
input character, so the fuel `length + 1` passed by `pJString` is never
exhausted. -/
def pJStringGo : Nat → List Char → Except Unit (List Char × List Char)
  | 0, _ => .error ()
  | _ + 1, [] => .error ()
  | fuel + 1, c :: rest =>
    if c = '"' then .ok ([], rest)
    else if c = '\\' then
      match escChar? rest with
      | some (d, r) => (pJStringGo fuel r).map fun p => (d :: p.1, p.2)
      | none => .error ()
    else if c.toNat < 32 then .error ()
    else (pJStringGo fuel rest).map fun p => (c :: p.1, p.2)

def pJString (l : List Char) : Except Unit (List Char × List Char) :=
  pJStringGo (l.length + 1) l

def digitsToNat (ds : List Char) : Nat :=
  ds.foldl (fun a c => 10 * a + (c.toNat - 48)) 0

/-- `(\.[0-9]+)?` — the optional fraction digits. -/
def pFrac (l : List Char) : Except Unit (List Char × List Char) :=
  match l with
  | '.' :: r =>
    let ds := r.takeWhile Char.isDigit
    if ds = [] then .error () else .ok (ds, r.drop ds.length)
  | _ => .ok ([], l)

/-- `([eE][+-]?[0-9]+)?` — the optional exponent. -/
def pExp (l : List Char) : Except Unit (Int × List Char) :=
  match l with
  | c :: r =>
    if c = 'e' || c = 'E' then
      let (es, r2) : Int × List Char :=
        match r with
        | '+' :: r2 => (1, r2)
        | '-' :: r2 => (-1, r2)
        | _ => (1, r)
      let ds := r2.takeWhile Char.isDigit
      if ds = [] then .error () else .ok (es * digitsToNat ds, r2.drop ds.length)
    else .ok (0, l)
  | [] => .ok (0, [])

def mkNumVal (sgn : Int) (ip : Nat) (frac : List Char) (ex : Int) : ℚ :=
  let m : ℚ := ((sgn * (ip * 10 ^ frac.length + digitsToNat frac) : Int) : ℚ)
  let base : ℚ := m / ((10 : ℚ) ^ frac.length)
  if 0 ≤ ex then base * (10 : ℚ) ^ ex.toNat else base / (10 : ℚ) ^ (-ex).toNat

/-- JSON number: `-?(0|[1-9][0-9]*)(\.[0-9]+)?([eE][+-]?[0-9]+)?`. -/
def pJNumber (l : List Char) : Except Unit (ℚ × List Char) := do
  let (sgn, r1) : Int × List Char :=
    match l with
    | '-' :: r => (-1, r)
    | _ => (1, l)
  match r1 with
  | '0' :: r2 =>
    let (frac, r3) ← pFrac r2
    let (ex, r4) ← pExp r3
    .ok (mkNumVal sgn 0 frac ex, r4)
  | c :: _ =>
    if c.isDigit then do
      let ds := r1.takeWhile Char.isDigit
      let (frac, r3) ← pFrac (r1.drop ds.length)
      let (ex, r4) ← pExp r3
      .ok (mkNumVal sgn (digitsToNat ds) frac ex, r4)
    else .error ()
  | [] => .error ()

/-- `JSON.parse` duplicate-key semantics: the later value wins, the key keeps
its first position. -/
def insertKV : List (List Char × Json) → List Char → Json → List (List Char × Json)
  | [], k, v => [(k, v)]
  | (k', v') :: t, k, v =>
    if k' = k then (k', v) :: t else (k', v') :: insertKV t k v

mutual

/-- JSON value (fuel decreases on every recursive descent; the top-level call
passes `length + 1`, which cannot be exhausted since every descent consumes
input). -/
def pValue : Nat → List Char → Except Unit (Json × List Char)
  | 0, _ => .error ()
  | fuel + 1, l =>
    match skipJsonWs l with
    | '"' :: rest => (pJString rest).map fun p => (.str p.1, p.2)
    | '{' :: rest =>
      match skipJsonWs rest with
      | '}' :: r2 => .ok (.obj [], r2)
      | r1 => pMembers fuel r1 []
    | '[' :: rest =>
      match skipJsonWs rest with
      | ']' :: r2 => .ok (.arr [], r2)
      | r1 => pElems fuel r1 []
    | 't' :: 'r' :: 'u' :: 'e' :: restT => .ok (.bool true, restT)
    | 'f' :: 'a' :: 'l' :: 's' :: 'e' :: restF => .ok (.bool false, restF)
    | 'n' :: 'u' :: 'l' :: 'l' :: restN => .ok (.null, restN)
    | l' => (pJNumber l').map fun p => (.num p.1, p.2)

/-- Array elements after the first `[` (the empty array was handled by the
caller). -/
def pElems : Nat → List Char → List Json → Except Unit (Json × List Char)
  | 0, _, _ => .error ()
  | fuel + 1, l, acc =>
    match pValue fuel l with
    | .error e => .error e
    | .ok (v, r) =>
      match skipJsonWs r with
      | ',' :: r2 => pElems fuel r2 (acc ++ [v])
      | ']' :: r2 => .ok (.arr (acc ++ [v]), r2)
      | _ => .error ()

/-- Object members after the first `{` (whitespace before the key already
skipped; the empty object was handled by the caller). -/
def pMembers : Nat → List Char → List (List Char × Json) →
    Except Unit (Json × List Char)
  | 0, _, _ => .error ()
  | fuel + 1, l, acc =>
    match l with
    | '"' :: rest =>
      match pJString rest with
      | .error e => .error e
      | .ok (k, r1) =>
        match skipJsonWs r1 with
        | ':' :: r2 =>
          match pValue fuel r2 with
          | .error e => .error e
          | .ok (v, r3) =>
            match skipJsonWs r3 with
            | ',' :: r4 => pMembers fuel (skipJsonWs r4) (insertKV acc k v)
            | '}' :: r4 => .ok (.obj (insertKV acc k v), r4)
            | _ => .error ()
        | _ => .error ()
    | _ => .error ()

end

/-- `JSON.parse`: a single value, then only whitespace. -/
def jsonParse (l : List Char) : Except Unit Json :=
  match pValue (l.length + 1) l with
  | .error e => .error e
  | .ok (v, r) => if skipJsonWs r = [] then .ok v else .error ()

/-! ### Driver/builtin models: `ObjectId`, `Date`, `Long`

These model the external library calls of `deserializeBsonTypes`
(parser.ts:283-314): `new ObjectId(s)` and `Long.fromString(s)` from the
`mongodb` driver (bson v6 / long.js semantics) and the JavaScript `Date`
constructor. -/

/-- `new ObjectId(s)` (bson v6): requires `^[0-9a-fA-F]{24}$`, otherwise it
throws.  The stored 12-byte buffer is modelled by its canonical rendering
`toHexString()` — the lowercase hex form. -/
def objectIdFromString (s : List Char) : Except Unit (List Char) :=
  if s.length = 24 ∧ s.all isHexCh = true then .ok (jsToLower s) else .error ()

structure DateParts where
  year : Nat
  month : Nat
  day : Nat
  hour : Nat
  minute : Nat
  second : Nat
  ms : Nat
deriving DecidableEq, Repr

/-- A JavaScript `Date`: either a valid instant (kept as its UTC calendar
components, an injective encoding of the epoch-millisecond value on the
modelled range) or the Invalid Date. -/
inductive JsDate where
  | invalid
  | valid (p : DateParts)
deriving DecidableEq, Repr

def digitChar : Nat → Char
  | 0 => '0'
  | 1 => '1'
  | 2 => '2'
  | 3 => '3'
  | 4 => '4'
  | 5 => '5'
  | 6 => '6'
  | 7 => '7'
  | 8 => '8'
  | 9 => '9'
  | _ => '0'

def charDigit? (c : Char) : Option Nat :=
  if c.isDigit then some (c.toNat - 48) else none

def parse2 : List Char → Option (Nat × List Char)
  | a :: b :: r =>
    match charDigit? a, charDigit? b with
    | some x, some y => some (10 * x + y, r)
    | _, _ => none
  | _ => none

def parse3 : List Char → Option (Nat × List Char)
  | a :: b :: c :: r =>
    match charDigit? a, charDigit? b, charDigit? c with
    | some x, some y, some z => some (100 * x + 10 * y + z, r)
    | _, _, _ => none
  | _ => none

def parse4 : List Char → Option (Nat × List Char)
  | a :: b :: c :: d :: r =>
    match charDigit? a, charDigit? b, charDigit? c, charDigit? d with
    | some x, some y, some z, some w => some (1000 * x + 100 * y + 10 * z + w, r)
    | _, _, _, _ => none
  | _ => none

def isLeapYear (y : Nat) : Bool :=
  (y % 4 = 0 && y % 100 ≠ 0) || y % 400 = 0

def daysInMonth (y m : Nat) : Nat :=
  if m = 2 then (if isLeapYear y then 29 else 28)
  else if m = 4 ∨ m = 6 ∨ m = 9 ∨ m = 11 then 30
  else 31

def validParts (p : DateParts) : Prop :=
  1 ≤ p.month ∧ p.month ≤ 12 ∧ 1 ≤ p.day ∧ p.day ≤ daysInMonth p.year p.month ∧
    p.hour ≤ 23 ∧ p.minute ≤ 59 ∧ p.second ≤ 59 ∧ p.year ≤ 9999 ∧ p.ms ≤ 999

instance (p : DateParts) : Decidable (validParts p) := by
  unfold validParts; infer_instance

def mkDate (y mo d h mi sec ms : Nat) : JsDate :=
  let p : DateParts := ⟨y, mo, d, h, mi, sec, ms⟩
  if validParts p then .valid p else .invalid

/-- Models `new Date(s)` on the canonical ES date-time string formats
`YYYY-MM-DD` and `YYYY-MM-DDTHH:MM:SS.mmmZ`.  Other formats the engine
accepts are modelled as invalid (none occurs below); out-of-range components
give the Invalid Date, as V8 does for ISO-format strings.  The constructor
never throws: an invalid date is still a `Date` object. -/
def jsDateParse (s : List Char) : JsDate :=
  match parse4 s with
  | some (y, '-' :: r1) =>
    match parse2 r1 with
    | some (mo, '-' :: r2) =>
      match parse2 r2 with
      | some (d, r3) =>
        match r3 with
        | [] => mkDate y mo d 0 0 0 0
        | 'T' :: r4 =>
          match parse2 r4 with
          | some (h, ':' :: r5) =>
            match parse2 r5 with
            | some (mi, ':' :: r6) =>
              match parse2 r6 with
              | some (sec, '.' :: r7) =>
                match parse3 r7 with
                | some (ms, ['Z']) => mkDate y mo d h mi sec ms
                | _ => .invalid
              | _ => .invalid
            | _ => .invalid
          | _ => .invalid
        | _ => .invalid
      | none => .invalid
    | _ => .invalid
  | _ => .invalid

def pad2 (n : Nat) : List Char := [digitChar (n / 10), digitChar (n % 10)]

def pad3 (n : Nat) : List Char :=
  [digitChar (n / 100), digitChar (n / 10 % 10), digitChar (n % 10)]

def pad4 (n : Nat) : List Char :=
  [digitChar (n / 1000), digitChar (n / 100 % 10), digitChar (n / 10 % 10),
    digitChar (n % 10)]

/-- `Date.prototype.toISOString` on a valid date (the canonical form). -/
def dateToIso (p : DateParts) : List Char :=
  pad4 p.year ++ '-' :: (pad2 p.month ++ '-' :: (pad2 p.day ++ 'T' ::
    (pad2 p.hour ++ ':' :: (pad2 p.minute ++ ':' :: (pad2 p.second ++ '.' ::
      (pad3 p.ms ++ ['Z']))))))

/-- Unsigned 64-bit wrap (the `%` on `Int` is `Int.emod`, non-negative for a
positive modulus). -/
def u64 (n : Int) : Int := n % (2 ^ 64)

/-- The signed interpretation of the 64 bits. -/
def toSigned64 (n : Int) : Int :=
  let m := u64 n
  if 2 ^ 63 ≤ m then m - 2 ^ 64 else m

/-- Models `parseInt(s, 10)` as applied to the ≤8-character chunks of
`Long.fromString`: skip whitespace, optional sign, maximal leading digit run;
`none` is NaN (which `Long.fromNumber` maps to zero). -/
def parseIntLead (l : List Char) : Option Int :=
  let r0 := l.dropWhile isJsWs
  let hasPlus : Bool := match r0 with | c :: _ => c = '+' | [] => false
  let hasMinus : Bool := match r0 with | c :: _ => c = '-' | [] => false
  let sgn : Int := if hasMinus then -1 else 1
  let r1 := if hasPlus || hasMinus then r0.drop 1 else r0
  let ds := r1.takeWhile Char.isDigit
  if ds = [] then none else some (sgn * digitsToNat ds)

/-- The 8-character chunk loop of `Long.fromString`: each step multiplies by
`10^chunkLength` and adds the chunk's `parseInt` value, wrapping to 64 bits. -/
def longChunksGo : Nat → List Char → Int → Int
  | 0, _, acc => acc
  | _ + 1, [], acc => acc
  | fuel + 1, l, acc =>
    let chunk := l.take 8
    let value : Int := (parseIntLead chunk).getD 0
    longChunksGo fuel (l.drop 8) (u64 (acc * 10 ^ chunk.length + value))

/-- Models `Long.fromString(s)` (long.js, radix 10): throws on the empty
string and on an interior hyphen; the `NaN`/`Infinity` spellings give zero;
a leading hyphen negates (64-bit two's complement); otherwise the 8-character
chunk loop runs (non-numeric chunks contribute their leading digit run or
zero — no throw).  The result is the signed 64-bit value. -/
def longFromString : List Char → Except Unit Int
  | [] => .error ()
  | l =>
    if l = "NaN".toList ∨ l = "Infinity".toList ∨ l = "-Infinity".toList ∨
        l = "+Infinity".toList then .ok 0
    else
      match l with
      | '-' :: rest => (longFromString rest).map fun v => toSigned64 (-v)
      | _ =>
        if l.contains '-' then .error ()
        else .ok (toSigned64 (longChunksGo (l.length + 1) l 0))

def natDecAux : Nat → Nat → List Char → List Char
  | 0, _, acc => acc
  | fuel + 1, n, acc =>
    if n < 10 then digitChar n :: acc
    else natDecAux fuel (n / 10) (digitChar (n % 10) :: acc)

def natDec (n : Nat) : List Char := natDecAux (n + 1) n []

/-- Models `Long.prototype.toString()` (radix 10): the canonical signed
decimal form. -/
def longToString (n : Int) : List Char :=
  if n < 0 then '-' :: natDec n.natAbs else natDec n.toNat

/-! ### The materialized value tree and `deserializeBsonTypes` -/

/-- The universal result shape of argument materialization: JSON scalars and
containers plus the three native types `deserializeBsonTypes` produces.
`objectId` carries the canonical lowercase-hex form of the 12-byte buffer,
`long` the signed 64-bit value, `date` the `Date` object. -/
inductive MValue where
  | null
  | bool (b : Bool)
  | num (q : ℚ)
  | str (s : List Char)
  | objectId (hex : List Char)
  | date (d : JsDate)
  | long (n : Int)
  | arr (xs : List MValue)
  | obj (kvs : List (List Char × MValue))

/-- `deserializeBsonTypes` (parser.ts:283-314).  The fuel decreases on each
recursion into children; the caller passes a fuel exceeding the nesting depth
of any value parsed from its text, so the fuel case is never reached. -/
def deserializeBsonTypes : Nat → Json → Except Unit MValue
  | 0, _ => .error ()
  | _ + 1, .null => .ok .null
  | _ + 1, .bool b => .ok (.bool b)
  | _ + 1, .num q => .ok (.num q)
  | _ + 1, .str s => .ok (.str s)
  | fuel + 1, .arr xs => (xs.mapM (deserializeBsonTypes fuel)).map .arr
  | fuel + 1, .obj kvs =>
    match kvs with
    | [(k, .str s)] =>
      if k = "$oid".toList then (objectIdFromString s).map .objectId
      else if k = "$date".toList then .ok (.date (jsDateParse s))
      else if k = "$numberLong".toList then (longFromString s).map .long
      else
        (kvs.mapM fun kv => (deserializeBsonTypes fuel kv.2).map ((kv.1, ·))).map .obj
    | _ =>
      (kvs.mapM fun kv => (deserializeBsonTypes fuel kv.2).map ((kv.1, ·))).map .obj

/-! ### `parseArguments` (parser.ts:106-123) -/

/-- The body of the `try` block: normalize, parse `[…]`, deserialize each
element. -/
def parseArgumentsE (trimmed : List Char) : Except Unit (List MValue) := do
  let jsonStr := convertToJson trimmed
  let j ← jsonParse ('[' :: (jsonStr ++ [']']))
  match j with
  | .arr xs => xs.mapM fun x => deserializeBsonTypes (jsonStr.length + 2) x
  | _ => .error ()

/-- `parseArguments`: empty list on empty trimmed input; the single-element
raw-string fallback on any failure. -/
def parseArguments (argsStr : List Char) : List MValue :=
  let trimmed := jsTrim argsStr
  if trimmed = [] then []
  else
    match parseArgumentsE trimmed with
    | .ok vs => vs
    | .error _ => [.str trimmed]

/-! ### Query layer: `parseQuery` and the classifier
(parser.ts:8-100, 319-358; method tables from src/types/index.ts) -/

inductive QueryType where
  | read
  | write
  | admin
  | unknown
deriving DecidableEq, Repr

structure ParsedQuery where
  type : QueryType
  collection : Option (List Char) := none
  method : Option (List Char) := none
  args : List MValue := []

/-- `READONLY_METHODS` (src/types/index.ts). -/
def READONLY_METHODS : List (List Char) :=
  ["find".toList, "findOne".toList, "countDocuments".toList,
    "estimatedDocumentCount".toList, "aggregate".toList, "getIndexes".toList,
    "indexes".toList, "stats".toList, "listCollections".toList,
    "listDatabases".toList]

/-- `WRITE_METHODS` (src/types/index.ts). -/
def WRITE_METHODS : List (List Char) :=
  ["insertOne".toList, "insertMany".toList, "updateOne".toList,
    "updateMany".toList, "replaceOne".toList, "deleteOne".toList,
    "deleteMany".toList, "drop".toList, "dropDatabase".toList,
    "createIndex".toList, "dropIndex".toList, "dropIndexes".toList,
    "createCollection".toList, "renameCollection".toList]

/-- `getQueryType` (parser.ts:319-327). -/
def getQueryType (method : List Char) : QueryType :=
  if READONLY_METHODS.contains method then .read
  else if WRITE_METHODS.contains method then .write
  else .unknown

def splitWsGo : Nat → List Char → List (List Char)
  | 0, _ => []
  | fuel + 1, l =>
    let tok := l.takeWhile (fun c => !isJsWs c)
    let rest := l.drop tok.length
    match rest with
    | [] => [tok]
    | _ => tok :: splitWsGo fuel (rest.dropWhile isJsWs)

/-- Models `str.split(/\s+/)` (an empty leading field when the string starts
with whitespace, an empty trailing field when it ends with one). -/
def splitWs (l : List Char) : List (List Char) := splitWsGo (l.length + 1) l

/-- `parseShowCommand` (parser.ts:32-46). -/
def parseShowCommand (q : List Char) : ParsedQuery :=
  let parts := splitWs (jsToLower q)
  match parts.get? 1 with
  | some t =>
    if t = "dbs".toList ∨ t = "databases".toList then
      { type := .admin, method := some ("listDatabases".toList) }
    else if t = "collections".toList ∨ t = "tables".toList then
      { type := .admin, method := some ("listCollections".toList) }
    else { type := .unknown }
  | none => { type := .unknown }

/-- `parseUseCommand` (parser.ts:51-57): the regex `/^use\s+(\w+)/i` — a
case-insensitive `use`, at least one whitespace character, then the maximal
nonempty run of word characters as the captured name. -/
def parseUseCommand (q : List Char) : ParsedQuery :=
  let rest := q.drop 3
  let wsN := (rest.takeWhile isJsWs).length
  let tok := (rest.drop wsN).takeWhile isWordChar
  if jsToLower (q.take 3) = "use".toList ∧ 1 ≤ wsN ∧ tok ≠ [] then
    { type := .admin, method := some ("use".toList), args := [.str tok] }
  else { type := .unknown }

/-- The split of `/^db\.([\w.]+)\.(\w+)\(([\s\S]*)\)$/`: after `db.` the two
captures cover the maximal `[\w.]` run, which must be followed directly by
`(`, and the argument capture is greedy, so it extends to the last `)` (which
must close the input).  Backtracking can only succeed at the run's final dot:
any earlier dot leaves a `\w+` capture that stops at a dot where `\(` then
fails. -/
def splitLastDot (run : List Char) : Option (List Char × List Char) :=
  let mrev := run.reverse.takeWhile (fun c => c ≠ '.')
  if mrev.length = run.length then none
  else
    let meth := mrev.reverse
    let coll := run.take (run.length - mrev.length - 1)
    if coll = [] ∨ meth = [] then none else some (coll, meth)

def collMethodMatch (q : List Char) : Option (List Char × List Char × List Char) :=
  let r := q.drop 3
  let run := r.takeWhile (fun c => isWordChar c || c = '.')
  match r.drop run.length with
  | '(' :: rest =>
    match rest.reverse with
    | ')' :: midRev => (splitLastDot run).map fun p => (p.1, p.2, midRev.reverse)
    | _ => none
  | _ => none

/-- `parseDbQuery` (parser.ts:62-100). -/
def parseDbQuery (q : List Char) : ParsedQuery :=
  if q = "db.stats()".toList then
    { type := .admin, method := some ("dbStats".toList) }
  else if q = "db.dropDatabase()".toList then
    { type := .admin, method := some ("dropDatabase".toList) }
  else if q = "db.getCollectionNames()".toList then
    { type := .admin, method := some ("listCollections".toList) }
  else
    match collMethodMatch q with
    | some (coll, meth, argsStr) =>
      { type := getQueryType meth, collection := some coll, method := some meth,
        args := parseArguments argsStr }
    | none => { type := .unknown }

/-- `parseQuery` (parser.ts:8-27). -/
def parseQuery (query : List Char) : ParsedQuery :=
  let trimmed := jsTrim query
  if "show ".toList.isPrefixOf (jsToLower trimmed) then parseShowCommand trimmed
  else if "use ".toList.isPrefixOf (jsToLower trimmed) then parseUseCommand trimmed
  else if "db.".toList.isPrefixOf trimmed then parseDbQuery trimmed
  else { type := .unknown }

/-- The readonly-admin subset of `isReadonlyOperation` (parser.ts:339). -/
def readonlyAdminMethods : List (List Char) :=
  ["listDatabases".toList, "listCollections".toList, "use".toList,
    "dbStats".toList]

/-- `isReadonlyOperation` (parser.ts:332-344); `parsed.method || ''` is the
`getD []` default. -/
def isReadonlyOperation (p : ParsedQuery) : Bool :=
  if p.type = .read then true
  else if p.type = .admin then readonlyAdminMethods.contains (p.method.getD [])
  else false

/-- `hasWriteStages` (parser.ts:349-358): `'$out' in stage || '$merge' in
stage` for an object stage (`in` on an array or a non-object is false). -/
def hasWriteStages (pipeline : List MValue) : Bool :=
  pipeline.any fun stage =>
    match stage with
    | .obj kvs =>
      kvs.any (fun kv => kv.1 == "$out".toList) ||
        kvs.any (fun kv => kv.1 == "$merge".toList)
    | _ => false

/-- A raw single-key tagged object (any payload), the intermediate shape the
spec says must not leak past the materializer. -/
def isRawTagged : MValue → Bool
  | .obj [(k, _)] =>
    k == "$oid".toList || k == "$date".toList || k == "$numberLong".toList
  | _ => false

/-- A raw single-key tagged object with a string payload — the exact
intermediate form `convertToJson` emits and `deserializeBsonTypes` consumes. -/
def isRawTaggedStr : MValue → Bool
  | .obj [(k, .str _)] =>
    k == "$oid".toList || k == "$date".toList || k == "$numberLong".toList
  | _ => false

/-- Occurrence of a value inside a materialized value tree (reflexive;
through array elements and object values). -/
inductive MOccurs : MValue → MValue → Prop
  | refl (v : MValue) : MOccurs v v
  | inArr {v w : MValue} {xs : List MValue} :
      w ∈ xs → MOccurs v w → MOccurs v (.arr xs)
  | inObj {v w : MValue} {kvs : List (List Char × MValue)} {k : List Char} :
      (k, w) ∈ kvs → MOccurs v w → MOccurs v (.obj kvs)

/-- Characters that are "structural text": no quote of either style, no
backslash, no control character.  Commas, braces, brackets and
constructor-call-shaped text are made of such characters. -/
def plainChar (c : Char) : Bool :=
  !(c = '"') && !(c = '\'') && !(c = '\\') && decide (32 ≤ c.toNat)

/-- Safe inside a single-quoted literal: anything but a single quote, a
backslash or a control character (a double quote is allowed). -/
def sqSafeChar (c : Char) : Bool :=
  !(c = '\'') && !(c = '\\') && decide (32 ≤ c.toNat)

/-- The canonical double-quoted spelling of the string value `s` (double
quotes escaped; `s` is assumed backslash-free). -/
def dqLit (s : List Char) : List Char := '"' :: (escapeDq s ++ ['"'])

/-- The canonical single-quoted spelling of the string value `s` (`s` is
assumed single-quote-free and backslash-free, so no escaping is needed). -/
def sqLit (s : List Char) : List Char := '\'' :: (s ++ ['\''])

/-- `^[0-9a-f]$` — one lowercase hexadecimal digit. -/
def isLowerHexCh (c : Char) : Bool :=
  c.isDigit || ('a' ≤ c && c ≤ 'f')

/-- The single-quoted constructor-call spelling `name('payload')` — `name`
includes the opening parenthesis, e.g. `"ObjectId("`. -/
def ctorLit (name payload : List Char) : List Char :=
  name ++ '\'' :: (payload ++ ['\'', ')'])

/-! ## Generic list lemmas -/

theorem take_len_append (l₁ l₂ : List Char) : (l₁ ++ l₂).take l₁.length = l₁ := by
  induction l₁ with
  | nil => rfl
  | cons c t ih => simp [List.take, ih]

theorem drop_len_append (l₁ l₂ : List Char) : (l₁ ++ l₂).drop l₁.length = l₂ := by
  induction l₁ with
  | nil => rfl
  | cons c t ih => simpa using ih

theorem take_len_add_append (l₁ l₂ : List Char) (n : Nat) :
    (l₁ ++ l₂).take (l₁.length + n) = l₁ ++ l₂.take n := by
  induction l₁ with
  | nil => simp
  | cons c t ih => simp [List.take, Nat.succ_add, ih]

theorem drop_len_add_append (l₁ l₂ : List Char) (n : Nat) :
    (l₁ ++ l₂).drop (l₁.length + n) = l₂.drop n := by
  induction l₁ with
  | nil => simp
  | cons c t ih => simpa [Nat.succ_add] using ih

theorem takeWhile_append_cons (p : Char → Bool) (l₁ : List Char) (x : Char)
    (l₂ : List Char) (h : ∀ c ∈ l₁, p c = true) (hx : p x = false) :
    (l₁ ++ x :: l₂).takeWhile p = l₁ := by
  induction l₁ with
  | nil => simp [List.takeWhile, hx]
  | cons c t ih =>
    have hc := h c (by simp)
    simp only [List.cons_append, List.takeWhile, hc]
    exact congrArg (c :: ·) (ih fun d hd => h d (by simp [hd]))

theorem dropWhile_append_cons (p : Char → Bool) (l₁ : List Char) (x : Char)
    (l₂ : List Char) (h : ∀ c ∈ l₁, p c = true) (hx : p x = false) :
    (l₁ ++ x :: l₂).dropWhile p = x :: l₂ := by
  induction l₁ with
  | nil => simp [List.dropWhile, hx]
  | cons c t ih =>
    have hc := h c (by simp)
    simp only [List.cons_append, List.dropWhile, hc]
    exact ih fun d hd => h d (by simp [hd])

theorem takeWhile_all (p : Char → Bool) (l : List Char)
    (h : ∀ c ∈ l, p c = true) : l.takeWhile p = l := by
  induction l with
  | nil => rfl
  | cons c t ih =>
    have hc := h c (by simp)
    simp only [List.takeWhile, hc]
    exact congrArg (c :: ·) (ih fun d hd => h d (by simp [hd]))

theorem isPrefixOf_append_self (l₁ l₂ : List Char) :
    l₁.isPrefixOf (l₁ ++ l₂) = true := by
  induction l₁ with
  | nil => simp [List.isPrefixOf]
  | cons c t ih => simpa [List.isPrefixOf] using ih

theorem dropWhile_cons_of_neg (p : Char → Bool) (c : Char) (l : List Char)
    (h : p c = false) : (c :: l).dropWhile p = c :: l := by
  simp [List.dropWhile, h]

theorem jsTrimRight_append_last (l : List Char) (c : Char)
    (h : isJsWs c = false) : jsTrimRight (l ++ [c]) = l ++ [c] := by
  unfold jsTrimRight
  rw [List.reverse_append]
  simp [dropWhile_cons_of_neg _ _ _ h]

/-- Trimming fixes a string whose first and last characters are not
whitespace. -/
theorem jsTrim_eq_self (c d : Char) (l : List Char)
    (hc : isJsWs c = false) (hd : isJsWs d = false) :
    jsTrim (c :: l ++ [d]) = c :: l ++ [d] := by
  unfold jsTrim
  rw [show (c :: l ++ [d] : List Char).dropWhile isJsWs = c :: l ++ [d] by
    simpa using dropWhile_cons_of_neg isJsWs c (l ++ [d]) hc]
  exact jsTrimRight_append_last (c :: l) d hd

/-! ## Claims -/

/-- **C10** — suffix matching of constructor names: in
`{a: MyDate("2024-01-01")}` the constructor name `Date` occurs only as a
proper suffix of the bareword `MyDate`, outside any string; after copying
`M` and `y` verbatim the scanner re-attempts an anchored typed-literal match
and rewrites the embedded `Date("2024-01-01")` call into the tagged
`{"$date": ...}` object. -/
theorem c10_suffix_constructor_rewrite :
    convertToJson ("\x7ba: MyDate(\"2024-01-01\")\x7d".toList) =
      "\x7b\"a\": My\x7b\"$date\":\"2024-01-01\"\x7d\x7d".toList := by
  with_unfolding_all rfl

/-- **C9 (counterexample)** — the claim's inventory lists an identifier
constructor under two names; the recognizer accepts only the spelling
`ObjectId`: the classic alternative spellings `ObjectID`, `UUID` and
`BinData` are all rejected at the very position where `ObjectId` is
accepted. -/
theorem c9_two_identifier_names_false :
    tryMatchBson ("ObjectID(\"507f1f77bcf86cd799439011\")".toList) = none ∧
    tryMatchBson ("UUID(\"507f1f77bcf86cd799439011\")".toList) = none ∧
    tryMatchBson ("BinData(\"507f1f77bcf86cd799439011\")".toList) = none ∧
    tryMatchBson ("ObjectId(\"507f1f77bcf86cd799439011\")".toList) =
      some ("\x7b\"$oid\":\"507f1f77bcf86cd799439011\"\x7d".toList, 36) := by
  refine ⟨?_, ?_, ?_, ?_⟩ <;> with_unfolding_all rfl

/-- **C9 (amended)** — constructor spelling inventory: the recognizer
accepts the identifier constructor under the single name `ObjectId`, the
instant constructor under the two interchangeable names `ISODate` and
`Date`, the 64-bit-integer constructor `NumberLong` with a quoted or bare
signed decimal, and the 32-bit-integer constructor `NumberInt` with a bare
or quoted signed decimal resolving to a plain number — each optionally
prefixed by `new`; materialization maps each spelling to the corresponding
typed value. -/
theorem c9_spelling_inventory :
    parseArguments ("ObjectId(\"507f1f77bcf86cd799439011\")".toList) =
      [.objectId ("507f1f77bcf86cd799439011".toList)] ∧
    parseArguments ("new ObjectId(\"507f1f77bcf86cd799439011\")".toList) =
      [.objectId ("507f1f77bcf86cd799439011".toList)] ∧
    parseArguments ("ISODate(\"2024-12-25T10:30:00.123Z\")".toList) =
      [.date (.valid ⟨2024, 12, 25, 10, 30, 0, 123⟩)] ∧
    parseArguments ("new ISODate(\"2024-12-25T10:30:00.123Z\")".toList) =
      [.date (.valid ⟨2024, 12, 25, 10, 30, 0, 123⟩)] ∧
    parseArguments ("Date(\"2024-12-25T10:30:00.123Z\")".toList) =
      [.date (.valid ⟨2024, 12, 25, 10, 30, 0, 123⟩)] ∧
    parseArguments ("new Date(\"2024-12-25T10:30:00.123Z\")".toList) =
      [.date (.valid ⟨2024, 12, 25, 10, 30, 0, 123⟩)] ∧
    parseArguments ("NumberLong(\"123\")".toList) = [.long 123] ∧
    parseArguments ("NumberLong(123)".toList) = [.long 123] ∧
    parseArguments ("new NumberLong(-45)".toList) = [.long (-45)] ∧
    parseArguments ("NumberInt(25)".toList) = [.num 25] ∧
    parseArguments ("NumberInt(\"25\")".toList) = [.num 25] ∧
    parseArguments ("new NumberInt(-7)".toList) = [.num (-7)] := by
  refine ⟨?_, ?_, ?_, ?_, ?_, ?_, ?_, ?_, ?_, ?_, ?_, ?_⟩ <;>
    with_unfolding_all rfl

/-- **C6 (counterexample)** — an uppercase 24-hex-digit identifier argument
materializes to an Identifier whose canonical (lowercase) string form is not
the argument. -/
theorem c6_uppercase_hex_not_roundtrip :
    parseArguments ("ObjectId(\"507F1F77BCF86CD799439011\")".toList) =
      [.objectId ("507f1f77bcf86cd799439011".toList)] ∧
    ("507f1f77bcf86cd799439011".toList : List Char) ≠
      "507F1F77BCF86CD799439011".toList := by
  exact ⟨by with_unfolding_all rfl, by decide⟩

/-- **C7 (counterexample)** — the input `{$oid: 5}` materializes to a raw
single-key tagged object `{"$oid": 5}`: the deserializer only converts
tagged objects whose payload is a string, so this one leaks through. -/
theorem c7_tagged_leak_counterexample :
    parseArguments ("\x7b$oid: 5\x7d".toList) = [.obj [("$oid".toList, .num 5)]] ∧
    isRawTagged (.obj [("$oid".toList, .num 5)]) = true := by
  exact ⟨by with_unfolding_all rfl, by with_unfolding_all rfl⟩

/-- **C8 (counterexample)** — for `use my-db` the first whitespace-delimited
token is `my-db`, but the extracted database name is only `my` (the regex
captures `\w+`, which stops at the hyphen). -/
theorem c8_token_truncated_counterexample :
    parseQuery ("use my-db".toList) =
      { type := .admin, method := some ("use".toList),
        args := [.str ("my".toList)] } ∧
    (parseQuery ("use my-db".toList)).args ≠ [.str ("my-db".toList)] := by
  constructor
  · with_unfolding_all rfl
  · intro h
    rw [show (parseQuery ("use my-db".toList)).args = [.str ("my".toList)] from
      by with_unfolding_all rfl] at h
    have h2 := congrArg (fun l => match l with
      | [MValue.str s] => s
      | _ => ([] : List Char)) h
    simp only at h2
    exact absurd h2 (by decide)

/-- **C2** — fallback guarantee: materialization is a total function; it
returns the empty list whenever the trimmed input is empty, and whenever the
normalize/parse/deserialize pipeline fails it returns exactly the
one-element list holding the trimmed input verbatim (shown concretely for a
non-hexadecimal identifier argument). -/
theorem c2_fallback_guarantee :
    (∀ s : List Char, jsTrim s = [] → parseArguments s = []) ∧
    (∀ (s : List Char) (e : Unit), parseArgumentsE (jsTrim s) = .error e →
      parseArguments s = [.str (jsTrim s)]) ∧
    parseArguments ("ObjectId(\"nothex\")".toList) =
      [.str ("ObjectId(\"nothex\")".toList)] := by
  refine ⟨?_, ?_, ?_⟩
  · intro s h
    simp [parseArguments, h]
  · intro s e h
    by_cases hs : jsTrim s = []
    · rw [hs] at h
      rw [show parseArgumentsE ([] : List Char) = .ok [] from
        by with_unfolding_all rfl] at h
      exact Except.noConfusion h
    · simp [parseArguments, hs, h]
  · with_unfolding_all rfl

/-- Witness for C2 at concrete inputs. -/
theorem c2_fallback_guarantee_witness :
    parseArguments ("   ".toList) = [] ∧
    parseArguments ("\x7boops".toList) = [.str ("\x7boops".toList)] := by
  constructor
  · exact c2_fallback_guarantee.1 ("   ".toList) (by with_unfolding_all rfl)
  · exact c2_fallback_guarantee.2.1 ("\x7boops".toList) ()
      (by with_unfolding_all rfl)

/-- **C5** — trailing-comma idempotence: `{a: 1, b: 2,}` and `{a: 1, b: 2}`
materialize to structurally equal results, nested and repeated trailing
commas (`[[1,2,],]`) are removed at every depth, and in general a comma whose
following non-whitespace character is `}` or `]` is dropped together with the
intervening whitespace while the scanner does not advance past the closing
character itself. -/
theorem c5_trailing_comma_idempotence :
    parseArguments ("\x7ba: 1, b: 2,\x7d".toList) =
      parseArguments ("\x7ba: 1, b: 2\x7d".toList) ∧
    parseArguments ("[[1,2,],]".toList) = parseArguments ("[[1,2]]".toList) ∧
    (∀ (fuel : Nat) (ws rest : List Char) (b : Char),
      (∀ c ∈ ws, isJsWs c = true) → (b = '}' ∨ b = ']') →
      ctjGo (fuel + 1) (',' :: (ws ++ b :: rest)) = ctjGo fuel (b :: rest)) := by
  refine ⟨by with_unfolding_all rfl, by with_unfolding_all rfl, ?_⟩
  intro fuel ws rest b hws hb
  have hbws : isJsWs b = false := by
    rcases hb with h | h <;> subst h <;> decide
  have htw : (ws ++ b :: rest).takeWhile isJsWs = ws :=
    takeWhile_append_cons isJsWs ws b rest hws hbws
  have hdrop : (ws ++ b :: rest).drop ws.length = b :: rest :=
    drop_len_append ws (b :: rest)
  simp only [ctjGo, htw, hdrop]
  rcases hb with h | h <;> subst h <;> simp

/-- Witness for C5: the trailing-comma step applied at `", ]"`. -/
theorem c5_trailing_comma_idempotence_witness :
    ctjGo 5 ([',', ' ', ']']) = ctjGo 4 ([']']) :=
  c5_trailing_comma_idempotence.2.2 4 [' '] [] ']' (by decide) (Or.inr rfl)

theorem contains_iff_mem (l : List (List Char)) (a : List Char) :
    l.contains a = true ↔ a ∈ l := by
  induction l with
  | nil => simp [List.contains]
  | cons x t ih =>
    simp only [List.contains_cons, Bool.or_eq_true, beq_iff_eq, List.mem_cons, ih]

/-- **C3** — classification completeness and readonly safety: every
write-table method classifies to Write and is absent from the readonly-admin
subset (which never contains `dropDatabase`); `show dbs` and
`show collections` classify as Admin and are readonly-safe; a parsed command
is readonly-safe iff its type is read, or its type is admin and its method
belongs to the fixed readonly-admin subset; and a pipeline containing a
stage object with a `$out` or `$merge` key is flagged write-capable at any
position. -/
theorem c3_classification :
    (∀ m ∈ WRITE_METHODS, getQueryType m = .write ∧ m ∉ readonlyAdminMethods) ∧
    ("dropDatabase".toList ∉ readonlyAdminMethods) ∧
    (parseQuery ("show dbs".toList) =
      { type := .admin, method := some ("listDatabases".toList) } ∧
      isReadonlyOperation (parseQuery ("show dbs".toList)) = true) ∧
    (parseQuery ("show collections".toList) =
      { type := .admin, method := some ("listCollections".toList) } ∧
      isReadonlyOperation (parseQuery ("show collections".toList)) = true) ∧
    (∀ p : ParsedQuery, isReadonlyOperation p = true ↔
      (p.type = .read ∨ (p.type = .admin ∧
        ∃ m, p.method = some m ∧ m ∈ readonlyAdminMethods))) ∧
    (∀ (pre post : List MValue) (kvs : List (List Char × MValue)),
      (∃ kv ∈ kvs, kv.1 = "$out".toList ∨ kv.1 = "$merge".toList) →
      hasWriteStages (pre ++ .obj kvs :: post) = true) := by
  refine ⟨by decide, by decide,
    ⟨by with_unfolding_all rfl, by with_unfolding_all rfl⟩,
    ⟨by with_unfolding_all rfl, by with_unfolding_all rfl⟩, ?_, ?_⟩
  · intro p
    rcases p with ⟨t, coll, m, args⟩
    cases t
    · simp [isReadonlyOperation]
    · simp [isReadonlyOperation]
    · -- admin
      cases m with
      | none => simp [isReadonlyOperation, readonlyAdminMethods]
      | some mm =>
        simp only [isReadonlyOperation]
        simp [contains_iff_mem]
    · simp [isReadonlyOperation]
  · rintro pre post kvs ⟨kv, hmem, hkey⟩
    have hstage : (kvs.any (fun kv => kv.1 == "$out".toList) ||
        kvs.any (fun kv => kv.1 == "$merge".toList)) = true := by
      rcases hkey with h | h
      · have hx : kvs.any (fun kv => kv.1 == "$out".toList) = true :=
          List.any_eq_true.2 ⟨kv, hmem, by simp only [h, beq_self_eq_true]⟩
        simp only [hx, Bool.true_or]
      · have hx : kvs.any (fun kv => kv.1 == "$merge".toList) = true :=
          List.any_eq_true.2 ⟨kv, hmem, by simp only [h, beq_self_eq_true]⟩
        simp only [hx, Bool.or_true]
    exact List.any_eq_true.2
      ⟨.obj kvs, List.mem_append_right _ (List.mem_cons_self _ _), hstage⟩

/-- Witness for C3 at concrete instances: the method `drop`, a concrete
admin command, and a pipeline with `$out` in second position. -/
theorem c3_classification_witness :
    (getQueryType ("drop".toList) = .write ∧
      "drop".toList ∉ readonlyAdminMethods) ∧
    (isReadonlyOperation
      { type := .admin, method := some ("dbStats".toList) } = true ↔
      (QueryType.admin = .read ∨ (QueryType.admin = .admin ∧
        ∃ m, (some ("dbStats".toList) : Option (List Char)) = some m ∧
          m ∈ readonlyAdminMethods))) ∧
    hasWriteStages [.null, .obj [("$out".toList, .str ("r".toList))]] = true := by
  refine ⟨c3_classification.1 ("drop".toList) (by decide), ?_, ?_⟩
  · exact c3_classification.2.2.2.2.1
      { type := .admin, method := some ("dbStats".toList) }
  · exact c3_classification.2.2.2.2.2 [.null] [] [("$out".toList, .str ("r".toList))]
      ⟨("$out".toList, .str ("r".toList)), List.mem_cons_self _ _, Or.inl rfl⟩

/-! ## C7: no tagged-object leak -/

theorem mapM_ok_mem {α β : Type} (f : α → Except Unit β) :
    ∀ (xs : List α) (ys : List β), xs.mapM f = .ok ys →
      ∀ y ∈ ys, ∃ x ∈ xs, f x = .ok y := by
  intro xs
  induction xs with
  | nil =>
    intro ys h y hy
    simp only [List.mapM_nil, pure, Except.pure, Except.ok.injEq] at h
    subst h
    simp at hy
  | cons x xs ih =>
    intro ys h y hy
    rw [List.mapM_cons] at h
    cases hfx : f x with
    | error e => rw [hfx] at h; simp [Bind.bind, Except.bind] at h
    | ok y0 =>
      rw [hfx] at h
      cases hm : xs.mapM f with
      | error e => rw [hm] at h; simp [Bind.bind, Except.bind] at h
      | ok ys0 =>
        rw [hm] at h
        simp only [Bind.bind, Except.bind, pure, Except.pure, Except.ok.injEq] at h
        subst h
        rcases List.mem_cons.1 hy with hy0 | hy1
        · exact ⟨x, List.mem_cons_self _ _, hy0 ▸ hfx⟩
        · obtain ⟨x1, hx1, hfx1⟩ := ih ys0 hm y hy1
          exact ⟨x1, List.mem_cons_of_mem _ hx1, hfx1⟩

theorem mapM_ok_singleton_inv {α β : Type} (f : α → Except Unit β) :
    ∀ (xs : List α) (y : β), xs.mapM f = .ok [y] →
      ∃ x, xs = [x] ∧ f x = .ok y := by
  intro xs y h
  cases xs with
  | nil =>
    rw [List.mapM_nil] at h
    simp [pure, Except.pure] at h
  | cons x t =>
    rw [List.mapM_cons] at h
    cases hfx : f x with
    | error e => rw [hfx] at h; simp [Bind.bind, Except.bind] at h
    | ok y0 =>
      rw [hfx] at h
      cases hm : t.mapM f with
      | error e => rw [hm] at h; simp [Bind.bind, Except.bind] at h
      | ok ys0 =>
        rw [hm] at h
        simp only [Bind.bind, Except.bind, pure, Except.pure, Except.ok.injEq,
          List.cons.injEq] at h
        obtain ⟨hy0, hys0⟩ := h
        cases t with
        | nil => exact ⟨x, rfl, by rw [hfx, hy0]⟩
        | cons a t' =>
          exfalso
          subst hys0
          rw [List.mapM_cons] at hm
          cases hfa : f a with
          | error e => rw [hfa] at hm; simp [Bind.bind, Except.bind] at hm
          | ok b =>
            rw [hfa] at hm
            cases hm2 : t'.mapM f with
            | error e => rw [hm2] at hm; simp [Bind.bind, Except.bind] at hm
            | ok bs =>
              rw [hm2] at hm
              simp [Bind.bind, Except.bind, pure, Except.pure] at hm

/-- The only JSON node the deserializer can turn into a string value is a
string node. -/
theorem deserialize_ok_str_inv (fuel : Nat) (j : Json) (t : List Char)
    (h : deserializeBsonTypes fuel j = .ok (.str t)) : j = .str t := by
  match fuel, j with
  | 0, _ => exact absurd h (by simp [deserializeBsonTypes])
  | f + 1, .null => exact absurd h (by simp [deserializeBsonTypes])
  | f + 1, .bool b => exact absurd h (by simp [deserializeBsonTypes])
  | f + 1, .num q => exact absurd h (by simp [deserializeBsonTypes])
  | f + 1, .str s =>
    simp only [deserializeBsonTypes, Except.ok.injEq, MValue.str.injEq] at h
    rw [h]
  | f + 1, .arr xs =>
    exfalso
    simp only [deserializeBsonTypes] at h
    cases hm : xs.mapM (deserializeBsonTypes f) with
    | error e => rw [hm] at h; simp [Except.map] at h
    | ok ys => rw [hm] at h; simp [Except.map] at h
  | f + 1, .obj kvs =>
    exfalso
    rcases kvs with _ | ⟨⟨k, jv⟩, kvt⟩
    · rw [show deserializeBsonTypes (f + 1) (.obj []) = .ok (.obj []) from rfl] at h
      simp at h
    · rcases kvt with _ | ⟨kv2, kvt'⟩
      · cases jv with
        | str s =>
          simp only [deserializeBsonTypes] at h
          by_cases h1 : k = "$oid".toList
          · rw [if_pos h1] at h
            cases ho : objectIdFromString s with
            | error e => rw [ho] at h; simp [Except.map] at h
            | ok hex => rw [ho] at h; simp [Except.map] at h
          · rw [if_neg h1] at h
            by_cases h2 : k = "$date".toList
            · rw [if_pos h2] at h; simp at h
            · rw [if_neg h2] at h
              by_cases h3 : k = "$numberLong".toList
              · rw [if_pos h3] at h
                cases hl : longFromString s with
                | error e => rw [hl] at h; simp [Except.map] at h
                | ok n => rw [hl] at h; simp [Except.map] at h
              · rw [if_neg h3] at h
                cases hm : ([(k, Json.str s)].mapM fun kv =>
                    (deserializeBsonTypes f kv.2).map ((kv.1, ·))) with
                | error e => rw [hm] at h; simp [Except.map] at h
                | ok kvs' => rw [hm] at h; simp [Except.map] at h
        | null =>
          simp only [deserializeBsonTypes] at h
          cases hm : ([(k, Json.null)].mapM fun kv =>
              (deserializeBsonTypes f kv.2).map ((kv.1, ·))) with
          | error e => rw [hm] at h; simp [Except.map] at h
          | ok kvs' => rw [hm] at h; simp [Except.map] at h
        | bool b =>
          simp only [deserializeBsonTypes] at h
          cases hm : ([(k, Json.bool b)].mapM fun kv =>
              (deserializeBsonTypes f kv.2).map ((kv.1, ·))) with
          | error e => rw [hm] at h; simp [Except.map] at h
          | ok kvs' => rw [hm] at h; simp [Except.map] at h
        | num q =>
          simp only [deserializeBsonTypes] at h
          cases hm : ([(k, Json.num q)].mapM fun kv =>
              (deserializeBsonTypes f kv.2).map ((kv.1, ·))) with
          | error e => rw [hm] at h; simp [Except.map] at h
          | ok kvs' => rw [hm] at h; simp [Except.map] at h
        | arr ys =>
          simp only [deserializeBsonTypes] at h
          cases hm : ([(k, Json.arr ys)].mapM fun kv =>
              (deserializeBsonTypes f kv.2).map ((kv.1, ·))) with
          | error e => rw [hm] at h; simp [Except.map] at h
          | ok kvs' => rw [hm] at h; simp [Except.map] at h
        | obj kvs2 =>
          simp only [deserializeBsonTypes] at h
          cases hm : ([(k, Json.obj kvs2)].mapM fun kv =>
              (deserializeBsonTypes f kv.2).map ((kv.1, ·))) with
          | error e => rw [hm] at h; simp [Except.map] at h
          | ok kvs' => rw [hm] at h; simp [Except.map] at h
      · simp only [deserializeBsonTypes] at h
        cases hm : (((k, jv) :: kv2 :: kvt').mapM fun kv =>
            (deserializeBsonTypes f kv.2).map ((kv.1, ·))) with
        | error e => rw [hm] at h; simp [Except.map] at h
        | ok kvs' => rw [hm] at h; simp [Except.map] at h

/-- Values produced by the generic object-rebuild path of the deserializer
contain no string-payload tagged object, provided the rebuilt object itself
is not a tagged singleton (which the caller knows from the branch taken). -/
theorem rebuild_no_tagged {f : Nat} {kvs : List (List Char × Json)}
    {w v : MValue}
    (h : ((kvs.mapM fun kv =>
      (deserializeBsonTypes f kv.2).map ((kv.1, ·))).map MValue.obj) = .ok w)
    (hshape : ∀ k s, kvs = [(k, Json.str s)] →
      ((k == "$oid".toList || k == "$date".toList ||
        k == "$numberLong".toList) = false))
    (ih : ∀ (j : Json) (w v : MValue), deserializeBsonTypes f j = .ok w →
      MOccurs v w → isRawTaggedStr v = false)
    (hocc : MOccurs v w) : isRawTaggedStr v = false := by
  cases hm : (kvs.mapM fun kv => (deserializeBsonTypes f kv.2).map ((kv.1, ·))) with
  | error e => rw [hm] at h; simp [Except.map] at h
  | ok kvs' =>
    rw [hm] at h
    simp only [Except.map, Except.ok.injEq] at h
    subst h
    cases hocc with
    | refl =>
      rcases kvs' with _ | ⟨⟨k1, w1⟩, kt⟩
      · rfl
      · rcases kt with _ | ⟨p2, kt'⟩
        · cases w1
          case str t0 =>
            obtain ⟨x, hx, hfx⟩ := mapM_ok_singleton_inv _ kvs (k1, MValue.str t0) hm
            cases hd : deserializeBsonTypes f x.2 with
            | error e => rw [hd] at hfx; simp [Except.map] at hfx
            | ok w2 =>
              rw [hd] at hfx
              simp only [Except.map, Except.ok.injEq, Prod.mk.injEq] at hfx
              obtain ⟨hx1, hw2⟩ := hfx
              have hjs := deserialize_ok_str_inv f x.2 t0 (by rw [hd, hw2])
              have hkv : kvs = [(k1, Json.str t0)] := by
                rcases x with ⟨xk, xv⟩
                simp only at hx1 hjs
                rw [hx, hjs, hx1]
              exact hshape k1 t0 hkv
          all_goals rfl
        · cases w1 <;> rfl
    | inObj hmem hocc' =>
      obtain ⟨x, hx, hfx⟩ := mapM_ok_mem _ kvs kvs' hm _ hmem
      cases hd : deserializeBsonTypes f x.2 with
      | error e => rw [hd] at hfx; simp [Except.map] at hfx
      | ok w2 =>
        rw [hd] at hfx
        simp only [Except.map, Except.ok.injEq, Prod.mk.injEq] at hfx
        exact ih x.2 w2 v hd (by rw [hfx.2]; exact hocc')

/-- No value reachable from a deserializer result is a string-payload tagged
object. -/
theorem deserialize_no_tagged : ∀ (fuel : Nat) (j : Json) (w v : MValue),
    deserializeBsonTypes fuel j = .ok w → MOccurs v w →
      isRawTaggedStr v = false := by
  intro fuel
  induction fuel with
  | zero => intro j w v h; exact absurd h (by simp [deserializeBsonTypes])
  | succ f ih =>
    intro j w v h hocc
    cases j with
    | null =>
      simp only [deserializeBsonTypes, Except.ok.injEq] at h
      subst h; cases hocc; rfl
    | bool b =>
      simp only [deserializeBsonTypes, Except.ok.injEq] at h
      subst h; cases hocc; rfl
    | num q =>
      simp only [deserializeBsonTypes, Except.ok.injEq] at h
      subst h; cases hocc; rfl
    | str s =>
      simp only [deserializeBsonTypes, Except.ok.injEq] at h
      subst h; cases hocc; rfl
    | arr xs =>
      simp only [deserializeBsonTypes] at h
      cases hm : xs.mapM (deserializeBsonTypes f) with
      | error e => rw [hm] at h; simp [Except.map] at h
      | ok ys =>
        rw [hm] at h
        simp only [Except.map, Except.ok.injEq] at h
        subst h
        cases hocc with
        | refl => rfl
        | inArr hmem hocc' =>
          obtain ⟨x, hx, hdx⟩ := mapM_ok_mem _ xs ys hm _ hmem
          exact ih x _ v hdx hocc'
    | obj kvs =>
      rcases kvs with _ | ⟨⟨k, jv⟩, kvt⟩
      · rw [show deserializeBsonTypes (f + 1) (.obj []) = .ok (.obj []) from
          rfl] at h
        simp only [Except.ok.injEq] at h
        subst h
        cases hocc with
        | refl => rfl
        | inObj hmem _ => simp at hmem
      · rcases kvt with _ | ⟨kv2, kvt'⟩
        · cases jv with
          | str s =>
            simp only [deserializeBsonTypes] at h
            by_cases h1 : k = "$oid".toList
            · rw [if_pos h1] at h
              cases ho : objectIdFromString s with
              | error e => rw [ho] at h; simp [Except.map] at h
              | ok hex =>
                rw [ho] at h
                simp only [Except.map, Except.ok.injEq] at h
                subst h; cases hocc; rfl
            · rw [if_neg h1] at h
              by_cases h2 : k = "$date".toList
              · rw [if_pos h2] at h
                simp only [Except.ok.injEq] at h
                subst h; cases hocc; rfl
              · rw [if_neg h2] at h
                by_cases h3 : k = "$numberLong".toList
                · rw [if_pos h3] at h
                  cases hl : longFromString s with
                  | error e => rw [hl] at h; simp [Except.map] at h
                  | ok n =>
                    rw [hl] at h
                    simp only [Except.map, Except.ok.injEq] at h
                    subst h; cases hocc; rfl
                · rw [if_neg h3] at h
                  refine rebuild_no_tagged h ?_ ih hocc
                  intro k' s' hkv
                  simp only [List.cons.injEq, Prod.mk.injEq, Json.str.injEq,
                    and_true] at hkv
                  rw [← hkv.1]
                  simp only [Bool.or_eq_false_iff, beq_eq_false_iff_ne, ne_eq]
                  exact ⟨⟨h1, h2⟩, h3⟩
          | null =>
            simp only [deserializeBsonTypes] at h
            refine rebuild_no_tagged h ?_ ih hocc
            intro k' s' hkv
            simp at hkv
          | bool b =>
            simp only [deserializeBsonTypes] at h
            refine rebuild_no_tagged h ?_ ih hocc
            intro k' s' hkv
            simp at hkv
          | num q =>
            simp only [deserializeBsonTypes] at h
            refine rebuild_no_tagged h ?_ ih hocc
            intro k' s' hkv
            simp at hkv
          | arr ys =>
            simp only [deserializeBsonTypes] at h
            refine rebuild_no_tagged h ?_ ih hocc
            intro k' s' hkv
            simp at hkv
          | obj kvs2 =>
            simp only [deserializeBsonTypes] at h
            refine rebuild_no_tagged h ?_ ih hocc
            intro k' s' hkv
            simp at hkv
        · simp only [deserializeBsonTypes] at h
          refine rebuild_no_tagged h ?_ ih hocc
          intro k' s' hkv
          simp at hkv

/-- **C7 (amended)** — no tagged-object leak with string payloads: no value
reachable from any materialized argument list is a single-key tagged object
of the intermediate extended-JSON form (`{"$oid": "…"}`, `{"$date": "…"}`,
`{"$numberLong": "…"}` with a string payload); tagged shapes with a
non-string payload are user-written objects, not intermediates, and can leak
(see the counterexample). -/
theorem c7_no_tagged_leak : ∀ (s : List Char) (w v : MValue),
    w ∈ parseArguments s → MOccurs v w → isRawTaggedStr v = false := by
  intro s w v hw hocc
  simp only [parseArguments] at hw
  by_cases ht : jsTrim s = []
  · rw [if_pos ht] at hw
    simp at hw
  · rw [if_neg ht] at hw
    cases he : parseArgumentsE (jsTrim s) with
    | error e =>
      rw [he] at hw
      rcases List.mem_singleton.1 hw with rfl
      cases hocc; rfl
    | ok vs =>
      rw [he] at hw
      simp only [parseArgumentsE, Bind.bind, Except.bind] at he
      cases hj : jsonParse ('[' :: (convertToJson (jsTrim s) ++ [']'])) with
      | error e => rw [hj] at he; exact Except.noConfusion he
      | ok j =>
        rw [hj] at he
        cases j with
        | arr xs =>
          obtain ⟨x, hx, hdx⟩ := mapM_ok_mem _ xs vs he w hw
          exact deserialize_no_tagged _ x w v hdx hocc
        | null => exact Except.noConfusion he
        | bool b => exact Except.noConfusion he
        | num q => exact Except.noConfusion he
        | str s2 => exact Except.noConfusion he
        | obj kvs => exact Except.noConfusion he

/-- Witness for C7 at a concrete input: the value `1` occurring inside the
materialized `{a: 1}` is not a tagged object. -/
theorem c7_no_tagged_leak_witness : isRawTaggedStr (.num 1) = false := by
  refine c7_no_tagged_leak ("\x7ba: 1\x7d".toList)
    (.obj [("a".toList, .num 1)]) (.num 1) ?_ ?_
  · rw [show parseArguments ("\x7ba: 1\x7d".toList) =
      [.obj [("a".toList, .num 1)]] from by with_unfolding_all rfl]
    exact List.mem_cons_self _ _
  · exact .inObj (List.mem_cons_self _ _) (.refl _)

/-! ## C8: `use` name extraction -/

/-- A word character is never whitespace (the `\w` and `\s` classes are
disjoint). -/
theorem word_not_ws (c : Char) (h : isWordChar c = true) : isJsWs c = false := by
  by_contra hne
  have hws : isJsWs c = true := by
    cases hx : isJsWs c
    · exact absurd hx hne
    · rfl
  simp only [isJsWs, Bool.or_eq_true, decide_eq_true_eq] at hws
  have hcval : c = ' ' ∨ c = '\t' ∨ c = '\n' ∨ c = '\r' ∨ c = '\x0b' ∨
      c = '\x0c' ∨ c = '\u00A0' ∨ c = '\uFEFF' := by
    rcases hws with (((((((h1 | h1) | h1) | h1) | h1) | h1) | h1) | h1)
    · exact Or.inl h1
    · exact Or.inr (Or.inl h1)
    · exact Or.inr (Or.inr (Or.inl h1))
    · exact Or.inr (Or.inr (Or.inr (Or.inl h1)))
    · exact Or.inr (Or.inr (Or.inr (Or.inr (Or.inl h1))))
    · exact Or.inr (Or.inr (Or.inr (Or.inr (Or.inr (Or.inl h1)))))
    · exact Or.inr (Or.inr (Or.inr (Or.inr (Or.inr (Or.inr (Or.inl
        (Char.ext (UInt32.ext h1))))))))
    · exact Or.inr (Or.inr (Or.inr (Or.inr (Or.inr (Or.inr (Or.inr
        (Char.ext (UInt32.ext h1))))))))
  rcases hcval with h1 | h1 | h1 | h1 | h1 | h1 | h1 | h1 <;> subst h1 <;>
    exact absurd h (by decide)

theorem dropWhile_append (p : Char → Bool) (l₁ l₂ : List Char) :
    (l₁ ++ l₂).dropWhile p =
      if (l₁.dropWhile p).isEmpty then l₂.dropWhile p
      else l₁.dropWhile p ++ l₂ := by
  induction l₁ with
  | nil => simp
  | cons c t ih =>
    by_cases h : p c = true
    · simp [List.dropWhile, h, ih]
    · simp [List.dropWhile, h]

theorem jsTrimRight_append_of_last (B r : List Char) (d : Char)
    (hd : isJsWs d = false) :
    jsTrimRight ((B ++ [d]) ++ r) = (B ++ [d]) ++ jsTrimRight r := by
  unfold jsTrimRight
  rw [List.reverse_append, List.reverse_append, dropWhile_append]
  by_cases h : (r.reverse.dropWhile isJsWs).isEmpty = true
  · rw [if_pos h]
    rw [List.isEmpty_iff] at h
    rw [h]
    simp [List.dropWhile, hd]
  · rw [if_neg h]
    simp

/-- The right-trim of a list is one of its prefixes; in particular a
nonempty trim of a cons keeps the head. -/
theorem jsTrimRight_cons_head (c : Char) (t : List Char) :
    jsTrimRight (c :: t) = [] ∨ ∃ t', jsTrimRight (c :: t) = c :: t' := by
  unfold jsTrimRight
  rw [List.reverse_cons, dropWhile_append]
  by_cases h : (t.reverse.dropWhile isJsWs).isEmpty = true
  · rw [if_pos h]
    by_cases hc : isJsWs c = true
    · left
      simp [List.dropWhile, hc]
    · right
      exact ⟨[], by simp [List.dropWhile, hc]⟩
  · rw [if_neg h]
    right
    exact ⟨(t.reverse.dropWhile isJsWs).reverse, by simp⟩

theorem jsTrim_cons_of_head (c : Char) (l : List Char)
    (hc : isJsWs c = false) : jsTrim (c :: l) = jsTrimRight (c :: l) := by
  unfold jsTrim
  rw [dropWhile_cons_of_neg _ _ _ hc]

/-- **C8 (amended)** — `use` name extraction: for an input
`use` + whitespace + token-tail, the database name of the resulting Admin
command is exactly the maximal leading run of word characters (`[A-Za-z0-9_]`)
of the first token; a token containing other characters is truncated at the
first non-word character (see the counterexample), and a token starting with
a non-word character yields no match at all. -/
theorem c8_use_name_amended (w t r : List Char)
    (hw : ∀ c ∈ w, isJsWs c = true) (ht0 : t ≠ [])
    (htw : ∀ c ∈ t, isWordChar c = true)
    (hr : isWordChar (r.headD '-') = false) :
    parseQuery ("use ".toList ++ (w ++ (t ++ r))) =
      { type := .admin, method := some ("use".toList), args := [.str t] } := by
  have hcons : ∀ X : List Char,
      "use ".toList ++ X = 'u' :: ('s' :: ('e' :: (' ' :: X))) := fun X => rfl
  obtain ⟨t0, d, rfl⟩ : ∃ t0 d, t = t0 ++ [d] :=
    ⟨t.dropLast, t.getLast ht0, (List.dropLast_append_getLast ht0).symm⟩
  have hd : isJsWs d = false :=
    word_not_ws d (htw d (List.mem_append_right _ (List.mem_singleton_self _)))
  -- the head character of the token
  obtain ⟨th, tl, hth⟩ : ∃ th tl, t0 ++ [d] = th :: tl := by
    cases t0 with
    | nil => exact ⟨d, [], rfl⟩
    | cons a b => exact ⟨a, b ++ [d], rfl⟩
  have hthw : isWordChar th = true := htw th (by rw [hth]; exact List.mem_cons_self _ _)
  have hthnws : isJsWs th = false := word_not_ws th hthw
  -- the trimmed query
  have htrim : jsTrim ("use ".toList ++ (w ++ ((t0 ++ [d]) ++ r))) =
      "use ".toList ++ (w ++ ((t0 ++ [d]) ++ jsTrimRight r)) := by
    rw [hcons, jsTrim_cons_of_head _ _ (by decide)]
    have hre : ('u' :: ('s' :: ('e' :: (' ' :: (w ++ ((t0 ++ [d]) ++ r)))))) =
        ((('u' :: ('s' :: ('e' :: (' ' :: (w ++ t0))))) ++ [d]) ++ r) := by
      simp
    rw [hre, jsTrimRight_append_of_last _ _ _ hd, hcons]
    simp
  -- the head of the trimmed tail
  have hrtail : jsTrimRight r = [] ∨
      ∃ c' t', jsTrimRight r = c' :: t' ∧ isWordChar c' = false := by
    cases r with
    | nil => exact Or.inl rfl
    | cons c0 r0 =>
      rcases jsTrimRight_cons_head c0 r0 with h | ⟨t', h⟩
      · exact Or.inl h
      · exact Or.inr ⟨c0, t', h, by simpa using hr⟩
  -- evaluate parseQuery
  simp only [parseQuery, htrim]
  rw [show (("show ".toList).isPrefixOf
      (jsToLower ("use ".toList ++ (w ++ ((t0 ++ [d]) ++ jsTrimRight r))))) =
      false from rfl]
  rw [show (("use ".toList).isPrefixOf
      (jsToLower ("use ".toList ++ (w ++ ((t0 ++ [d]) ++ jsTrimRight r))))) =
      true from by
    rw [show jsToLower ("use ".toList ++ (w ++ ((t0 ++ [d]) ++ jsTrimRight r))) =
      'u' :: ('s' :: ('e' :: (' ' ::
        jsToLower (w ++ ((t0 ++ [d]) ++ jsTrimRight r))))) from rfl]
    simp [List.isPrefixOf_cons₂, List.isPrefixOf_nil_left]]
  simp only [Bool.false_eq_true, if_false, if_true]
  -- evaluate parseUseCommand
  rw [hcons]
  simp only [parseUseCommand, List.drop_succ_cons, List.drop_zero,
    List.take_succ_cons, List.take_zero]
  have hsplit : (' ' :: (w ++ ((t0 ++ [d]) ++ jsTrimRight r))) =
      ((' ' :: w) ++ ((t0 ++ [d]) ++ jsTrimRight r)) := by simp
  have hws2 : ∀ c ∈ (' ' :: w), isJsWs c = true := by
    intro c hc
    rcases List.mem_cons.1 hc with rfl | hc
    · decide
    · exact hw c hc
  have htake : ((' ' :: w) ++ ((t0 ++ [d]) ++ jsTrimRight r)).takeWhile isJsWs =
      (' ' :: w) := by
    rw [show ((t0 ++ [d]) ++ jsTrimRight r) = th :: (tl ++ jsTrimRight r) from
      by rw [hth]; simp]
    exact takeWhile_append_cons _ _ _ _ hws2 hthnws
  have hdrop : ((' ' :: w) ++ ((t0 ++ [d]) ++ jsTrimRight r)).drop
      (' ' :: w).length = ((t0 ++ [d]) ++ jsTrimRight r) :=
    drop_len_append _ _
  have htok : ((t0 ++ [d]) ++ jsTrimRight r).takeWhile isWordChar = t0 ++ [d] := by
    rcases hrtail with h | ⟨c', t', h, hcw⟩
    · rw [h, List.append_nil]
      exact takeWhile_all _ _ htw
    · rw [h]
      exact takeWhile_append_cons _ _ _ _ htw hcw
  rw [hsplit, htake, hdrop]
  rw [show ((' ' :: w).length = w.length + 1) from by simp]
  rw [htok]
  rw [if_pos ⟨rfl, by omega, ht0⟩]

/-- Witness for C8 at `use  mydb  (trailing)`. -/
theorem c8_use_name_amended_witness :
    parseQuery ("use  mydb -x".toList) =
      { type := .admin, method := some ("use".toList),
        args := [.str ("mydb".toList)] } := by
  have h := c8_use_name_amended [' '] ("mydb".toList) (" -x".toList)
    (by decide) (by decide) (by decide) (by decide)
  exact h

/-! ## C1 / C4: string-content immunity and quote-style equivalence -/

theorem escapeDq_eq_self (s : List Char) (h : ∀ c ∈ s, ¬(c = '"')) :
    escapeDq s = s := by
  induction s with
  | nil => rfl
  | cons c t ih =>
    have hc := h c (List.mem_cons_self _ _)
    simp only [escapeDq, if_neg hc, List.singleton_append]
    exact congrArg (c :: ·) (ih fun d hd => h d (List.mem_cons_of_mem _ hd))

/-! Step equations for the fueled scanners (the equation compiler's
definitional unfoldings, restated for rewriting). -/

theorem closeLen_cons (q c : Char) (rest : List Char) :
    closeLen q (c :: rest) =
      if c = '\\' then
        match rest with
        | [] => 2
        | _ :: _ => 2 + closeLen q rest.tail
      else if c = q then 2
      else 1 + closeLen q rest := by
  rw [closeLen.eq_def]
  rcases rest with _ | ⟨a, b⟩ <;> rfl

theorem closeLen_cons_quote (q : Char) (rest : List Char) (hq : ¬(q = '\\')) :
    closeLen q (q :: rest) = 2 := by
  rw [closeLen_cons, if_neg hq, if_pos rfl]

theorem closeLen_cons_other (q c : Char) (rest : List Char) (h2 : ¬(c = '\\'))
    (h1 : ¬(c = q)) : closeLen q (c :: rest) = 1 + closeLen q rest := by
  rw [closeLen_cons, if_neg h2, if_neg h1]

theorem closeLen_cons_esc (q c2 : Char) (rest : List Char) :
    closeLen q ('\\' :: (c2 :: rest)) = 2 + closeLen q rest := by
  rw [closeLen_cons, if_pos rfl]
  rfl

theorem closeLen_noesc (q : Char) (m r : List Char) (hq : ¬(q = '\\'))
    (h : ∀ c ∈ m, ¬(c = q) ∧ ¬(c = '\\')) :
    closeLen q (m ++ q :: r) = m.length + 2 := by
  induction m with
  | nil =>
    rw [List.nil_append, closeLen_cons_quote q r hq]
    rfl
  | cons c t ih =>
    obtain ⟨h1, h2⟩ := h c (List.mem_cons_self _ _)
    rw [List.cons_append, closeLen_cons_other q c _ h2 h1,
      ih fun d hd => h d (List.mem_cons_of_mem _ hd)]
    simp only [List.length_cons]
    omega

theorem closeLen_escDq (s r : List Char) (h : ∀ c ∈ s, ¬(c = '\\')) :
    closeLen '"' (escapeDq s ++ '"' :: r) = (escapeDq s).length + 2 := by
  induction s with
  | nil =>
    rw [show escapeDq [] = [] from rfl, List.nil_append,
      closeLen_cons_quote '"' r (by decide)]
    rfl
  | cons c t ih =>
    have hc' := h c (List.mem_cons_self _ _)
    have iht := ih fun d hd => h d (List.mem_cons_of_mem _ hd)
    by_cases hc : c = '"'
    · subst hc
      rw [show escapeDq ('"' :: t) = '\\' :: ('"' :: escapeDq t) from rfl]
      rw [List.cons_append, List.cons_append, closeLen_cons_esc, iht]
      simp only [List.length_cons]
      omega
    · rw [show escapeDq (c :: t) = c :: escapeDq t from by
        rw [show escapeDq (c :: t) =
          (if c = '"' then ['\\', '"'] else [c]) ++ escapeDq t from rfl,
          if_neg hc]
        rfl]
      rw [List.cons_append, closeLen_cons_other _ c _ hc' hc, iht]
      simp only [List.length_cons]
      omega

theorem ctjGo_nil (fuel : Nat) : ctjGo (fuel + 1) [] = [] := by
  rw [ctjGo.eq_def]

theorem ctjGo_cons (fuel : Nat) (c : Char) (rest : List Char) :
    ctjGo (fuel + 1) (c :: rest) =
      (if c = '"' then
        let k := closeLen '"' rest
        (c :: rest).take k ++ ctjGo fuel ((c :: rest).drop k)
      else if c = '\'' then
        let k := closeLen '\'' rest
        let content := rest.take (k - 2)
        '"' :: (escapeDq content ++ '"' :: ctjGo fuel ((c :: rest).drop k))
      else if c = '{' then
        let wk := skipWhitespaceAndMatchKey rest
        c :: (wk.1 ++ ctjGo fuel (rest.drop wk.2))
      else if c = ',' then
        let wsN := (rest.takeWhile isJsWs).length
        match rest.drop wsN with
        | b :: r2 =>
          if b = '}' || b = ']' then
            ctjGo fuel (b :: r2)
          else
            let wk := skipWhitespaceAndMatchKey rest
            c :: (wk.1 ++ ctjGo fuel (rest.drop wk.2))
        | [] =>
          let wk := skipWhitespaceAndMatchKey rest
          c :: (wk.1 ++ ctjGo fuel (rest.drop wk.2))
      else
        match tryMatchBson (c :: rest) with
        | some (rep, consumed) => rep ++ ctjGo fuel ((c :: rest).drop consumed)
        | none => c :: ctjGo fuel rest) := by
  rw [ctjGo.eq_def]

theorem pValue_succ (fuel : Nat) (l : List Char) :
    pValue (fuel + 1) l =
      (match skipJsonWs l with
      | '"' :: rest => (pJString rest).map fun p => (Json.str p.1, p.2)
      | '{' :: rest =>
        match skipJsonWs rest with
        | '}' :: r2 => .ok (.obj [], r2)
        | r1 => pMembers fuel r1 []
      | '[' :: rest =>
        match skipJsonWs rest with
        | ']' :: r2 => .ok (.arr [], r2)
        | r1 => pElems fuel r1 []
      | 't' :: 'r' :: 'u' :: 'e' :: restT => .ok (.bool true, restT)
      | 'f' :: 'a' :: 'l' :: 's' :: 'e' :: restF => .ok (.bool false, restF)
      | 'n' :: 'u' :: 'l' :: 'l' :: restN => .ok (.null, restN)
      | l' => (pJNumber l').map fun p => (.num p.1, p.2)) := by
  rw [pValue.eq_def]

theorem pElems_succ (fuel : Nat) (l : List Char) (acc : List Json) :
    pElems (fuel + 1) l acc =
      (match pValue fuel l with
      | .error e => .error e
      | .ok (v, r) =>
        match skipJsonWs r with
        | ',' :: r2 => pElems fuel r2 (acc ++ [v])
        | ']' :: r2 => .ok (.arr (acc ++ [v]), r2)
        | _ => .error ()) := by
  rw [pElems.eq_def]

theorem pMembers_succ (fuel : Nat) (l : List Char)
    (acc : List (List Char × Json)) :
    pMembers (fuel + 1) l acc =
      (match l with
      | '"' :: rest =>
        match pJString rest with
        | .error e => .error e
        | .ok (k, r1) =>
          match skipJsonWs r1 with
          | ':' :: r2 =>
            match pValue fuel r2 with
            | .error e => .error e
            | .ok (v, r3) =>
              match skipJsonWs r3 with
              | ',' :: r4 => pMembers fuel (skipJsonWs r4) (insertKV acc k v)
              | '}' :: r4 => .ok (.obj (insertKV acc k v), r4)
              | _ => .error ()
          | _ => .error ()
      | _ => .error ()) := by
  rw [pMembers.eq_def]

theorem escapeDq_length_ge (s : List Char) : s.length ≤ (escapeDq s).length := by
  induction s with
  | nil => simp
  | cons c t ih =>
    show (c :: t).length ≤
      ((if c = '"' then ['\\', '"'] else [c]) ++ escapeDq t).length
    split <;>
      simp only [List.length_append, List.length_cons, List.length_nil] <;>
      omega

theorem pJStringGo_escDq (s : List Char) : ∀ (fuel : Nat) (r : List Char),
    s.length + 1 ≤ fuel → (∀ c ∈ s, ¬(c = '\\') ∧ 32 ≤ c.toNat) →
    pJStringGo fuel (escapeDq s ++ '"' :: r) = .ok (s, r) := by
  induction s with
  | nil =>
    intro fuel r hf h
    obtain ⟨f, rfl⟩ : ∃ f, fuel = f + 1 := ⟨fuel - 1, by omega⟩
    rfl
  | cons c t ih =>
    intro fuel r hf h
    obtain ⟨f, rfl⟩ : ∃ f, fuel = f + 1 := ⟨fuel - 1, by omega⟩
    obtain ⟨h1, h2⟩ := h c (List.mem_cons_self _ _)
    have iht := ih f r (by simp only [List.length_cons] at hf; omega)
      (fun d hd => h d (List.mem_cons_of_mem _ hd))
    by_cases hc : c = '"'
    · subst hc
      rw [show escapeDq ('"' :: t) = '\\' :: ('"' :: escapeDq t) from rfl]
      rw [List.cons_append, List.cons_append]
      show (pJStringGo f (escapeDq t ++ '"' :: r)).map
        (fun p => ('"' :: p.1, p.2)) = _
      rw [iht]
      rfl
    · have h32 : ¬(c.toNat < 32) := by omega
      rw [show escapeDq (c :: t) = c :: escapeDq t from by
        rw [show escapeDq (c :: t) =
          (if c = '"' then ['\\', '"'] else [c]) ++ escapeDq t from rfl,
          if_neg hc]
        rfl]
      rw [List.cons_append]
      have hstep : pJStringGo (f + 1) (c :: (escapeDq t ++ '"' :: r)) =
          if c = '"' then Except.ok ([], escapeDq t ++ '"' :: r)
          else if c = '\\' then
            match escChar? (escapeDq t ++ '"' :: r) with
            | some (d, r') => (pJStringGo f r').map fun p => (d :: p.1, p.2)
            | none => .error ()
          else if c.toNat < 32 then Except.error ()
          else (pJStringGo f (escapeDq t ++ '"' :: r)).map
            fun p => (c :: p.1, p.2) := rfl
      rw [hstep, if_neg hc, if_neg h1, if_neg h32, iht]
      rfl

theorem pJString_escDq (s r : List Char)
    (h : ∀ c ∈ s, ¬(c = '\\') ∧ 32 ≤ c.toNat) :
    pJString (escapeDq s ++ '"' :: r) = .ok (s, r) := by
  unfold pJString
  refine pJStringGo_escDq s _ r ?_ h
  have := escapeDq_length_ge s
  simp only [List.length_append, List.length_cons]
  omega

/-- A string body free of quotes, backslashes and control characters parses
verbatim up to its closing quote. -/
theorem pJString_safe (s r : List Char)
    (h : ∀ c ∈ s, ¬(c = '"') ∧ ¬(c = '\\') ∧ 32 ≤ c.toNat) :
    pJString (s ++ '"' :: r) = .ok (s, r) := by
  have he := escapeDq_eq_self s (fun c hc => (h c hc).1)
  have := pJString_escDq s r (fun c hc => ⟨(h c hc).2.1, (h c hc).2.2⟩)
  rwa [he] at this

theorem parseArgumentsE_eq (t : List Char) :
    parseArgumentsE t =
      Bind.bind (jsonParse ('[' :: (convertToJson t ++ [']']))) (fun j =>
        match j with
        | Json.arr xs => xs.mapM fun x =>
            deserializeBsonTypes ((convertToJson t).length + 2) x
        | _ => .error ()) := rfl

/-- Parsing the bracket-wrapped normalized text of one escaped string yields
the one-element array holding the decoded string. -/
theorem jsonParse_singleton_str (s : List Char)
    (h : ∀ c ∈ s, ¬(c = '\\') ∧ 32 ≤ c.toNat) :
    jsonParse ('[' :: (('"' :: (escapeDq s ++ ['"'])) ++ [']'])) =
      .ok (.arr [.str s]) := by
  have hpj : pJString (escapeDq s ++ ('"' :: [']'])) = .ok (s, [']']) :=
    pJString_escDq s [']'] h
  have h3 : pValue ((escapeDq s).length + 3)
      ('"' :: (escapeDq s ++ ('"' :: [']']))) = .ok (.str s, [']']) := by
    rw [show (escapeDq s).length + 3 = ((escapeDq s).length + 2) + 1 from rfl]
    rw [pValue_succ]
    show (pJString (escapeDq s ++ ('"' :: [']']))).map
      (fun p => (Json.str p.1, p.2)) = _
    rw [hpj]
    rfl
  have h2 : pElems ((escapeDq s).length + 4)
      ('"' :: (escapeDq s ++ ('"' :: [']']))) [] = .ok (.arr [.str s], []) := by
    rw [show (escapeDq s).length + 4 = ((escapeDq s).length + 3) + 1 from rfl]
    rw [pElems_succ, h3]
    rfl
  have h1 : pValue ((escapeDq s).length + 5)
      ('[' :: ('"' :: (escapeDq s ++ ('"' :: [']'])))) =
      .ok (.arr [.str s], []) := by
    rw [show (escapeDq s).length + 5 = ((escapeDq s).length + 4) + 1 from rfl]
    rw [pValue_succ]
    exact h2
  have hshape : ('[' :: (('"' :: (escapeDq s ++ ['"'])) ++ [']'])) =
      '[' :: ('"' :: (escapeDq s ++ ('"' :: [']']))) := by simp
  rw [hshape]
  unfold jsonParse
  rw [show ('[' :: ('"' :: (escapeDq s ++ ('"' :: [']'])))).length + 1 =
    (escapeDq s).length + 5 from by
    simp only [List.length_cons, List.length_append, List.length_singleton,
      List.length_nil]
    try omega]
  rw [h1]
  rfl

/-- Parsing the bracket-wrapped tagged object `[{"k":"s"}]` built from a
safe key and a safe payload yields the singleton array holding that
one-member object. -/
theorem jsonParse_tagged (k s : List Char)
    (hk : ∀ c ∈ k, ¬(c = '"') ∧ ¬(c = '\\') ∧ 32 ≤ c.toNat)
    (hs : ∀ c ∈ s, ¬(c = '"') ∧ ¬(c = '\\') ∧ 32 ≤ c.toNat) :
    jsonParse ('[' :: '{' :: '"' ::
        (k ++ '"' :: ':' :: '"' :: (s ++ '"' :: '}' :: ']' :: []))) =
      .ok (.arr [.obj [(k, .str s)]]) := by
  have hkey : pJString
      (k ++ '"' :: (':' :: '"' :: (s ++ '"' :: '}' :: ']' :: []))) =
      .ok (k, ':' :: '"' :: (s ++ '"' :: '}' :: ']' :: [])) :=
    pJString_safe k _ hk
  have hval : pJString (s ++ '"' :: ('}' :: ']' :: [])) =
      .ok (s, '}' :: ']' :: []) :=
    pJString_safe s _ hs
  have hv : ∀ f : Nat, pValue (f + 1) ('"' :: (s ++ '"' :: '}' :: ']' :: [])) =
      .ok (.str s, '}' :: ']' :: []) := by
    intro f
    rw [pValue_succ]
    show (pJString (s ++ '"' :: '}' :: ']' :: [])).map
      (fun p => (Json.str p.1, p.2)) = _
    rw [show (s ++ '"' :: '}' :: ']' :: []) =
      (s ++ '"' :: ('}' :: ']' :: [])) from rfl]
    rw [hval]
    rfl
  have hm : ∀ f : Nat, pMembers (f + 1 + 1)
      ('"' :: (k ++ '"' :: ':' :: '"' :: (s ++ '"' :: '}' :: ']' :: []))) [] =
      .ok (.obj [(k, .str s)], ']' :: []) := by
    intro f
    rw [pMembers_succ]
    simp only []
    rw [show (k ++ '"' :: ':' :: '"' :: (s ++ '"' :: '}' :: ']' :: [])) =
      (k ++ '"' :: (':' :: '"' :: (s ++ '"' :: '}' :: ']' :: []))) from rfl]
    rw [hkey]
    simp only []
    rw [show skipJsonWs (':' :: '"' :: (s ++ '"' :: '}' :: ']' :: [])) =
      ':' :: '"' :: (s ++ '"' :: '}' :: ']' :: []) from rfl]
    simp only []
    rw [hv f]
    simp only []
    rw [show skipJsonWs ('}' :: ']' :: []) = '}' :: ']' :: [] from rfl]
    simp only []
    rfl
  have hobj : ∀ f : Nat, pValue (f + 1 + 1 + 1)
      ('{' :: '"' :: (k ++ '"' :: ':' :: '"' :: (s ++ '"' :: '}' :: ']' :: []))) =
      .ok (.obj [(k, .str s)], ']' :: []) := by
    intro f
    rw [pValue_succ]
    show pMembers (f + 1 + 1)
      ('"' :: (k ++ '"' :: ':' :: '"' :: (s ++ '"' :: '}' :: ']' :: []))) [] = _
    exact hm f
  have helems : ∀ f : Nat, pElems (f + 1 + 1 + 1 + 1)
      ('{' :: '"' :: (k ++ '"' :: ':' :: '"' :: (s ++ '"' :: '}' :: ']' :: [])))
      [] = .ok (.arr [.obj [(k, .str s)]], []) := by
    intro f
    rw [pElems_succ]
    rw [hobj f]
    simp only []
    rw [show skipJsonWs (']' :: []) = ']' :: [] from rfl]
    simp only []
    rfl
  have htop : ∀ f : Nat, pValue (f + 1 + 1 + 1 + 1 + 1)
      ('[' :: '{' :: '"' ::
        (k ++ '"' :: ':' :: '"' :: (s ++ '"' :: '}' :: ']' :: []))) =
      .ok (.arr [.obj [(k, .str s)]], []) := by
    intro f
    rw [pValue_succ]
    show pElems (f + 1 + 1 + 1 + 1)
      ('{' :: '"' :: (k ++ '"' :: ':' :: '"' :: (s ++ '"' :: '}' :: ']' :: [])))
      [] = _
    exact helems f
  unfold jsonParse
  rw [show ('[' :: '{' :: '"' ::
      (k ++ '"' :: ':' :: '"' :: (s ++ '"' :: '}' :: ']' :: []))).length + 1 =
      (k.length + s.length + 5) + 1 + 1 + 1 + 1 + 1 from by
    simp only [List.length_cons, List.length_append, List.length_nil]
    omega]
  rw [htop (k.length + s.length + 5)]
  rfl

/-- Materializing the single-quoted spelling of a safe string yields exactly
that string. -/
theorem parseArguments_sqLit (s : List Char)
    (h : ∀ c ∈ s, sqSafeChar c = true) :
    parseArguments (sqLit s) = [.str s] := by
  have hsq : ∀ c ∈ s, ¬(c = '\'') ∧ ¬(c = '\\') ∧ 32 ≤ c.toNat := by
    intro c hc
    have := h c hc
    simp only [sqSafeChar, Bool.and_eq_true, Bool.not_eq_true',
      decide_eq_true_eq, decide_eq_false_iff_not] at this
    exact ⟨this.1.1, this.1.2, this.2⟩
  have hctj : convertToJson (sqLit s) = '"' :: (escapeDq s ++ ['"']) := by
    have hcl : closeLen '\'' (s ++ ['\'']) = s.length + 2 :=
      closeLen_noesc '\'' s [] (by decide)
        (fun c hc => ⟨(hsq c hc).1, (hsq c hc).2.1⟩)
    show ctjGo ((sqLit s).length + 1) (sqLit s) = _
    rw [show (sqLit s).length + 1 = (s.length + 2) + 1 from by
      simp [sqLit]]
    rw [show sqLit s = '\'' :: (s ++ ['\'']) from rfl]
    rw [ctjGo_cons, if_neg (by decide), if_pos rfl]
    simp only [hcl]
    rw [show s.length + 2 - 2 = s.length from by omega]
    rw [take_len_append s ['\'']]
    rw [show ('\'' :: (s ++ ['\''])).drop (s.length + 2) = [] from by
      rw [show s.length + 2 = ('\'' :: (s ++ ['\''])).length from by simp]
      exact List.drop_length _]
    rw [show s.length + 2 = (s.length + 1) + 1 from rfl, ctjGo_nil]
  have htrim : jsTrim (sqLit s) = sqLit s := by
    show jsTrim ('\'' :: (s ++ ['\''])) = _
    exact jsTrim_eq_self '\'' '\'' s (by decide) (by decide)
  have hne : sqLit s ≠ [] := by simp [sqLit]
  have hE : parseArgumentsE (sqLit s) = .ok [.str s] := by
    rw [parseArgumentsE_eq, hctj]
    rw [jsonParse_singleton_str s
      (fun c hc => ⟨(hsq c hc).2.1, (hsq c hc).2.2⟩)]
    show ([Json.str s].mapM fun x =>
      deserializeBsonTypes (('"' :: (escapeDq s ++ ['"'])).length + 2) x) = _
    rw [show ('"' :: (escapeDq s ++ ['"'])).length + 2 =
      ((escapeDq s).length + 3) + 1 from by
      simp only [List.length_cons, List.length_append, List.length_singleton,
        List.length_nil]
      try omega]
    rw [List.mapM_cons, List.mapM_nil]
    rw [show deserializeBsonTypes (((escapeDq s).length + 3) + 1)
      (Json.str s) = .ok (.str s) from rfl]
    rfl
  unfold parseArguments
  rw [htrim, if_neg hne, hE]

/-- Materializing the canonical double-quoted spelling of a safe string
yields exactly that string. -/
theorem parseArguments_dqLit (s : List Char)
    (h : ∀ c ∈ s, ¬(c = '\\') ∧ 32 ≤ c.toNat) :
    parseArguments (dqLit s) = [.str s] := by
  have hctj : convertToJson (dqLit s) = '"' :: (escapeDq s ++ ['"']) := by
    have hcl : closeLen '"' (escapeDq s ++ ['"']) = (escapeDq s).length + 2 :=
      closeLen_escDq s [] (fun c hc => (h c hc).1)
    show ctjGo ((dqLit s).length + 1) (dqLit s) = _
    rw [show (dqLit s).length + 1 = ((escapeDq s).length + 2) + 1 from by
      simp [dqLit]]
    rw [show dqLit s = '"' :: (escapeDq s ++ ['"']) from rfl]
    rw [ctjGo_cons, if_pos rfl]
    simp only [hcl]
    rw [show ('"' :: (escapeDq s ++ ['"'])).take ((escapeDq s).length + 2) =
      '"' :: (escapeDq s ++ ['"']) from by
      rw [show (escapeDq s).length + 2 = ('"' :: (escapeDq s ++ ['"'])).length
        from by simp]
      exact List.take_length _]
    rw [show ('"' :: (escapeDq s ++ ['"'])).drop ((escapeDq s).length + 2) = []
      from by
      rw [show (escapeDq s).length + 2 = ('"' :: (escapeDq s ++ ['"'])).length
        from by simp]
      exact List.drop_length _]
    rw [show (escapeDq s).length + 2 = ((escapeDq s).length + 1) + 1 from rfl,
      ctjGo_nil, List.append_nil]
  have htrim : jsTrim (dqLit s) = dqLit s := by
    show jsTrim ('"' :: (escapeDq s ++ ['"'])) = _
    exact jsTrim_eq_self '"' '"' (escapeDq s) (by decide) (by decide)
  have hne : dqLit s ≠ [] := by simp [dqLit]
  have hE : parseArgumentsE (dqLit s) = .ok [.str s] := by
    rw [parseArgumentsE_eq, hctj]
    rw [jsonParse_singleton_str s h]
    show ([Json.str s].mapM fun x =>
      deserializeBsonTypes (('"' :: (escapeDq s ++ ['"'])).length + 2) x) = _
    rw [show ('"' :: (escapeDq s ++ ['"'])).length + 2 =
      ((escapeDq s).length + 3) + 1 from by
      simp only [List.length_cons, List.length_append, List.length_singleton,
        List.length_nil]
      try omega]
    rw [List.mapM_cons, List.mapM_nil]
    rw [show deserializeBsonTypes (((escapeDq s).length + 3) + 1)
      (Json.str s) = .ok (.str s) from rfl]
    rfl
  unfold parseArguments
  rw [htrim, if_neg hne, hE]

/-- **C1** — string-content immunity: a string value made of structural text
(commas, braces, brackets, constructor-call-shaped characters — no quotes,
backslashes or control characters), spelled either double- or single-quoted
as the sole content of the argument text, materializes to exactly that
string: trailing-comma removal, unquoted-key rewriting and typed-literal
recognition never fire inside the string context. -/
theorem c1_string_content_immunity (s : List Char)
    (h : ∀ c ∈ s, plainChar c = true) :
    parseArguments ('"' :: (s ++ ['"'])) = [.str s] ∧
    parseArguments ('\'' :: (s ++ ['\''])) = [.str s] := by
  have hflat : ∀ c ∈ s, ¬(c = '"') ∧ ¬(c = '\'') ∧ ¬(c = '\\') ∧ 32 ≤ c.toNat := by
    intro c hc
    have := h c hc
    simp only [plainChar, Bool.and_eq_true, Bool.not_eq_true',
      decide_eq_true_eq, decide_eq_false_iff_not] at this
    exact ⟨this.1.1.1, this.1.1.2, this.1.2, this.2⟩
  have hesc : escapeDq s = s := escapeDq_eq_self s (fun c hc => (hflat c hc).1)
  constructor
  · have hd := parseArguments_dqLit s
      (fun c hc => ⟨(hflat c hc).2.2.1, (hflat c hc).2.2.2⟩)
    rw [show dqLit s = '"' :: (s ++ ['"']) from by rw [dqLit, hesc]] at hd
    exact hd
  · exact parseArguments_sqLit s (fun c hc => by
      simp only [sqSafeChar, Bool.and_eq_true, Bool.not_eq_true',
        decide_eq_true_eq, decide_eq_false_iff_not]
      exact ⟨⟨(hflat c hc).2.1, (hflat c hc).2.2.1⟩, (hflat c hc).2.2.2⟩)

/-- Witness for C1 at the spec's own example value `ObjectId(1) failed, }`. -/
theorem c1_string_content_immunity_witness :
    parseArguments ("\"ObjectId(1) failed, \x7d\"".toList) =
      [.str ("ObjectId(1) failed, \x7d".toList)] ∧
    parseArguments ('\'' :: ("ObjectId(1) failed, \x7d".toList ++ ['\''])) =
      [.str ("ObjectId(1) failed, \x7d".toList)] := by
  have h := c1_string_content_immunity ("ObjectId(1) failed, \x7d".toList)
    (by decide)
  exact ⟨h.1, h.2⟩

/-- **C4 (amended)** — quote-style equivalence holds for every string value
containing no single quote, no backslash and no control character (double
quotes nested inside a single-quoted spelling are fine): the canonical
double-quoted and single-quoted spellings materialize to the identical
one-element text value.  A backslash-escaped single quote inside a
single-quoted string does **not** become a literal character: the escape is
carried into the normalized text, where strict JSON rejects it, so the whole
argument falls back to the raw string (see the counterexample). -/
theorem c4_quote_style_equivalence (s : List Char)
    (h : ∀ c ∈ s, sqSafeChar c = true) :
    parseArguments (dqLit s) = parseArguments (sqLit s) ∧
    parseArguments (sqLit s) = [.str s] := by
  have hsq := parseArguments_sqLit s h
  have hdq := parseArguments_dqLit s (fun c hc => by
    have := h c hc
    simp only [sqSafeChar, Bool.and_eq_true, Bool.not_eq_true',
      decide_eq_true_eq, decide_eq_false_iff_not] at this
    exact ⟨this.1.2, this.2⟩)
  exact ⟨hdq.trans hsq.symm, hsq⟩

/-- Witness for C4 with one quote style nested inside the other:
`say "hi"` single-quoted versus double-quoted-with-escapes. -/
theorem c4_quote_style_equivalence_witness :
    parseArguments (dqLit ("say \"hi\"".toList)) =
      parseArguments (sqLit ("say \"hi\"".toList)) ∧
    parseArguments (sqLit ("say \"hi\"".toList)) =
      [.str ("say \"hi\"".toList)] := by
  have h := c4_quote_style_equivalence ("say \"hi\"".toList) (by decide)
  exact ⟨h.1, h.2⟩

/-- **C4 (counterexample)** — the escaped single quote: the single-quoted
spelling `'it\'s'` falls back to the raw string, while the double-quoted
spelling of the same value materializes to the text `it's`; the two spellings
are not equivalent. -/
theorem c4_escaped_single_quote_counterexample :
    parseArguments (('\'' :: 'i' :: 't' :: '\\' :: '\'' :: 's' :: '\'' :: [])) =
      [.str (('\'' :: 'i' :: 't' :: '\\' :: '\'' :: 's' :: '\'' :: []))] ∧
    parseArguments (('"' :: 'i' :: 't' :: '\'' :: 's' :: '"' :: [])) =
      [.str (('i' :: 't' :: '\'' :: 's' :: []))] ∧
    parseArguments (('\'' :: 'i' :: 't' :: '\\' :: '\'' :: 's' :: '\'' :: [])) ≠
      parseArguments (('"' :: 'i' :: 't' :: '\'' :: 's' :: '"' :: [])) := by
  refine ⟨by with_unfolding_all rfl, by with_unfolding_all rfl, ?_⟩
  intro hx
  rw [show parseArguments
      (('\'' :: 'i' :: 't' :: '\\' :: '\'' :: 's' :: '\'' :: [])) =
      [.str (('\'' :: 'i' :: 't' :: '\\' :: '\'' :: 's' :: '\'' :: []))] from
      by with_unfolding_all rfl] at hx
  rw [show parseArguments (('"' :: 'i' :: 't' :: '\'' :: 's' :: '"' :: [])) =
      [.str (('i' :: 't' :: '\'' :: 's' :: []))] from
      by with_unfolding_all rfl] at hx
  have h2 := congrArg (fun l => match l with
    | [MValue.str s] => s
    | _ => ([] : List Char)) hx
  simp only at h2
  exact absurd h2 (by decide)

/-! ## C6 support: character boxes -/

theorem char_box (c : Char)
    (h : 48 ≤ c.toNat ∧ c.toNat ≤ 57 ∨ c.toNat = 45 ∨ c.toNat = 58 ∨
      c.toNat = 46 ∨ c.toNat = 84 ∨ c.toNat = 90 ∨
      97 ≤ c.toNat ∧ c.toNat ≤ 102) :
    (¬(c = '"') ∧ ¬(c = '\\') ∧ 32 ≤ c.toNat) ∧ isQuoteCh c = false := by
  have hdq : ¬(c = '"') := fun he => by
    have := congrArg Char.toNat he
    rw [show ('"').toNat = 34 from rfl] at this
    omega
  have hsq : ¬(c = '\'') := fun he => by
    have := congrArg Char.toNat he
    rw [show ('\'').toNat = 39 from rfl] at this
    omega
  have hbs : ¬(c = '\\') := fun he => by
    have := congrArg Char.toNat he
    rw [show ('\\').toNat = 92 from rfl] at this
    omega
  refine ⟨⟨hdq, hbs, by omega⟩, ?_⟩
  simp [isQuoteCh, hdq, hsq]

theorem lowerHex_box (c : Char) (h : isLowerHexCh c = true) :
    48 ≤ c.toNat ∧ c.toNat ≤ 57 ∨ 97 ≤ c.toNat ∧ c.toNat ≤ 102 := by
  simp only [isLowerHexCh, Bool.or_eq_true, Bool.and_eq_true, Char.isDigit,
    decide_eq_true_eq, Char.le_def] at h
  rcases h with ⟨h1, h2⟩ | ⟨h1, h2⟩
  · exact Or.inl ⟨h1, h2⟩
  · exact Or.inr ⟨h1, h2⟩

theorem lowerHex_isHex (c : Char) (h : isLowerHexCh c = true) :
    isHexCh c = true := by
  simp only [isLowerHexCh, Bool.or_eq_true] at h
  simp only [isHexCh, Bool.or_eq_true]
  tauto

theorem lowerHex_toLower (c : Char) (h : isLowerHexCh c = true) :
    c.toLower = c := by
  have hb := lowerHex_box c h
  unfold Char.toLower
  rw [if_neg]
  omega

theorem digit_box (c : Char) (h : c.isDigit = true) :
    48 ≤ c.toNat ∧ c.toNat ≤ 57 := by
  simp only [Char.isDigit, Bool.and_eq_true, decide_eq_true_eq, Char.le_def] at h
  exact ⟨h.1, h.2⟩

theorem digitChar_box (n : Nat) :
    48 ≤ (digitChar n).toNat ∧ (digitChar n).toNat ≤ 57 := by
  unfold digitChar
  split <;> decide

theorem mem_pad2_box (n : Nat) (c : Char) (h : c ∈ pad2 n) :
    48 ≤ c.toNat ∧ c.toNat ≤ 57 := by
  unfold pad2 at h
  simp only [List.mem_cons, List.not_mem_nil, or_false] at h
  rcases h with rfl | rfl <;> exact digitChar_box _

theorem mem_pad3_box (n : Nat) (c : Char) (h : c ∈ pad3 n) :
    48 ≤ c.toNat ∧ c.toNat ≤ 57 := by
  unfold pad3 at h
  simp only [List.mem_cons, List.not_mem_nil, or_false] at h
  rcases h with rfl | rfl | rfl <;> exact digitChar_box _

theorem mem_pad4_box (n : Nat) (c : Char) (h : c ∈ pad4 n) :
    48 ≤ c.toNat ∧ c.toNat ≤ 57 := by
  unfold pad4 at h
  simp only [List.mem_cons, List.not_mem_nil, or_false] at h
  rcases h with rfl | rfl | rfl | rfl <;> exact digitChar_box _

theorem mem_dateToIso_box (p : DateParts) (c : Char) (h : c ∈ dateToIso p) :
    48 ≤ c.toNat ∧ c.toNat ≤ 57 ∨ c.toNat = 45 ∨ c.toNat = 58 ∨
      c.toNat = 46 ∨ c.toNat = 84 ∨ c.toNat = 90 ∨
      97 ≤ c.toNat ∧ c.toNat ≤ 102 := by
  unfold dateToIso at h
  rcases List.mem_append.mp h with h4 | h
  · exact Or.inl (mem_pad4_box _ _ h4)
  rcases List.mem_cons.mp h with rfl | h
  · exact Or.inr (Or.inl rfl)
  rcases List.mem_append.mp h with h2 | h
  · exact Or.inl (mem_pad2_box _ _ h2)
  rcases List.mem_cons.mp h with rfl | h
  · exact Or.inr (Or.inl rfl)
  rcases List.mem_append.mp h with h2 | h
  · exact Or.inl (mem_pad2_box _ _ h2)
  rcases List.mem_cons.mp h with rfl | h
  · exact Or.inr (Or.inr (Or.inr (Or.inr (Or.inl rfl))))
  rcases List.mem_append.mp h with h2 | h
  · exact Or.inl (mem_pad2_box _ _ h2)
  rcases List.mem_cons.mp h with rfl | h
  · exact Or.inr (Or.inr (Or.inl rfl))
  rcases List.mem_append.mp h with h2 | h
  · exact Or.inl (mem_pad2_box _ _ h2)
  rcases List.mem_cons.mp h with rfl | h
  · exact Or.inr (Or.inr (Or.inl rfl))
  rcases List.mem_append.mp h with h2 | h
  · exact Or.inl (mem_pad2_box _ _ h2)
  rcases List.mem_cons.mp h with rfl | h
  · exact Or.inr (Or.inr (Or.inr (Or.inl rfl)))
  rcases List.mem_append.mp h with h3 | h
  · exact Or.inl (mem_pad3_box _ _ h3)
  rcases List.mem_cons.mp h with rfl | h
  · exact Or.inr (Or.inr (Or.inr (Or.inr (Or.inr (Or.inl rfl)))))
  exact absurd h (List.not_mem_nil c)

/-! ## C6 support: anchored pattern matches on constructor literals -/

theorem matchQuotedArg_lit (name s : List Char) (hne : s ≠ [])
    (hq : ∀ c ∈ s, isQuoteCh c = false) :
    matchQuotedArg name (name ++ '\'' :: (s ++ ['\'', ')'])) =
      some (s, name.length + s.length + 3) := by
  unfold matchQuotedArg
  rw [isPrefixOf_append_self, if_pos rfl]
  rw [drop_len_append name ('\'' :: (s ++ ['\'', ')']))]
  simp only []
  rw [show isQuoteCh '\'' = true from rfl, if_pos rfl]
  rw [takeWhile_append_cons (fun c => !isQuoteCh c) s '\'' [')']
    (fun c hc => by simp [hq c hc]) rfl]
  rw [if_neg hne]
  rw [drop_len_append s ['\'', ')']]
  simp only []
  rw [show isQuoteCh '\'' = true from rfl, if_pos rfl]

theorem matchSignedDigits_pos (ds : List Char) (x : Char) (r : List Char)
    (hne : ds ≠ []) (hd : ∀ c ∈ ds, c.isDigit = true)
    (hx : x.isDigit = false) :
    matchSignedDigits (ds ++ x :: r) = some (ds, x :: r) := by
  obtain ⟨d, dt, rfl⟩ : ∃ d dt, ds = d :: dt := by
    cases ds with
    | nil => exact absurd rfl hne
    | cons d dt => exact ⟨d, dt, rfl⟩
  have hd0 := hd d (List.mem_cons_self _ _)
  unfold matchSignedDigits
  simp only [List.cons_append]
  rw [if_neg (show ¬(d = '-') from fun he => by
    rw [he] at hd0; exact absurd hd0 (by decide))]
  rw [show (d :: (dt ++ x :: r) : List Char) = (d :: dt) ++ x :: r from rfl]
  rw [takeWhile_append_cons Char.isDigit (d :: dt) x r hd hx]
  rw [if_neg (show ¬((d :: dt : List Char) = []) from by simp)]
  rw [drop_len_append (d :: dt) (x :: r)]

theorem matchSignedDigits_neg (ds : List Char) (x : Char) (r : List Char)
    (hne : ds ≠ []) (hd : ∀ c ∈ ds, c.isDigit = true)
    (hx : x.isDigit = false) :
    matchSignedDigits ('-' :: (ds ++ x :: r)) = some ('-' :: ds, x :: r) := by
  unfold matchSignedDigits
  simp only []
  rw [if_pos trivial]
  rw [takeWhile_append_cons Char.isDigit ds x r hd hx]
  rw [if_neg hne]
  rw [drop_len_append ds (x :: r)]

theorem tryMatchBson_oid (s : List Char) (hne : s ≠ [])
    (hq : ∀ c ∈ s, isQuoteCh c = false) :
    tryMatchBson ("ObjectId(".toList ++ '\'' :: (s ++ ['\'', ')'])) =
      some ("\x7b\"$oid\":\"".toList ++ s ++ "\"\x7d".toList, s.length + 12) := by
  have hcore : matchObjectIdCore
      ("ObjectId(".toList ++ '\'' :: (s ++ ['\'', ')'])) =
      some ("\x7b\"$oid\":\"".toList ++ s ++ "\"\x7d".toList, s.length + 12) := by
    unfold matchObjectIdCore
    rw [matchQuotedArg_lit ("ObjectId(".toList) s hne hq]
    rw [show ("ObjectId(".toList).length + s.length + 3 = s.length + 12 from by
      rw [show ("ObjectId(".toList).length = 9 from rfl]; omega]
    rfl
  have hw : withNew matchObjectIdCore
      ("ObjectId(".toList ++ '\'' :: (s ++ ['\'', ')'])) =
      some ("\x7b\"$oid\":\"".toList ++ s ++ "\"\x7d".toList, s.length + 12) := by
    unfold withNew
    rw [show newPrefixLen ("ObjectId(".toList ++ '\'' :: (s ++ ['\'', ')'])) =
      none from rfl]
    simp only []
    exact hcore
  unfold tryMatchBson
  rw [hw]
  rfl

theorem tryMatchBson_isoDate (s : List Char) (hne : s ≠ [])
    (hq : ∀ c ∈ s, isQuoteCh c = false) :
    tryMatchBson ("ISODate(".toList ++ '\'' :: (s ++ ['\'', ')'])) =
      some ("\x7b\"$date\":\"".toList ++ s ++ "\"\x7d".toList, s.length + 11) := by
  have hcore : matchISODateCore
      ("ISODate(".toList ++ '\'' :: (s ++ ['\'', ')'])) =
      some ("\x7b\"$date\":\"".toList ++ s ++ "\"\x7d".toList, s.length + 11) := by
    unfold matchISODateCore
    rw [matchQuotedArg_lit ("ISODate(".toList) s hne hq]
    rw [show ("ISODate(".toList).length + s.length + 3 = s.length + 11 from by
      rw [show ("ISODate(".toList).length = 8 from rfl]; omega]
    rfl
  have hw : withNew matchISODateCore
      ("ISODate(".toList ++ '\'' :: (s ++ ['\'', ')'])) =
      some ("\x7b\"$date\":\"".toList ++ s ++ "\"\x7d".toList, s.length + 11) := by
    unfold withNew
    rw [show newPrefixLen ("ISODate(".toList ++ '\'' :: (s ++ ['\'', ')'])) =
      none from rfl]
    simp only []
    exact hcore
  unfold tryMatchBson
  rw [show withNew matchObjectIdCore
    ("ISODate(".toList ++ '\'' :: (s ++ ['\'', ')'])) = none from rfl]
  rw [hw]
  rfl

theorem tryMatchBson_numberLong (t : List Char)
    (ht : matchSignedDigits (t ++ ['\'', ')']) = some (t, ['\'', ')'])) :
    tryMatchBson ("NumberLong(".toList ++ '\'' :: (t ++ ['\'', ')'])) =
      some ("\x7b\"$numberLong\":\"".toList ++ t ++ "\"\x7d".toList,
        t.length + 14) := by
  have hcore : matchNumberLongQuoted
      ("NumberLong(".toList ++ '\'' :: (t ++ ['\'', ')'])) =
      some ("\x7b\"$numberLong\":\"".toList ++ t ++ "\"\x7d".toList,
        t.length + 14) := by
    unfold matchNumberLongQuoted
    simp only []
    rw [isPrefixOf_append_self, if_pos rfl]
    rw [drop_len_append ("NumberLong(".toList) ('\'' :: (t ++ ['\'', ')']))]
    simp only []
    rw [show isQuoteCh '\'' = true from rfl, if_pos rfl]
    rw [ht]
    simp only []
    rw [show isQuoteCh '\'' = true from rfl, if_pos rfl]
    rw [show ("NumberLong(".toList).length + t.length + 3 = t.length + 14 from by
      rw [show ("NumberLong(".toList).length = 11 from rfl]; omega]
  have hw : withNew matchNumberLongQuoted
      ("NumberLong(".toList ++ '\'' :: (t ++ ['\'', ')'])) =
      some ("\x7b\"$numberLong\":\"".toList ++ t ++ "\"\x7d".toList,
        t.length + 14) := by
    unfold withNew
    rw [show newPrefixLen ("NumberLong(".toList ++ '\'' :: (t ++ ['\'', ')'])) =
      none from rfl]
    simp only []
    exact hcore
  unfold tryMatchBson
  rw [show withNew matchObjectIdCore
    ("NumberLong(".toList ++ '\'' :: (t ++ ['\'', ')'])) = none from rfl]
  rw [show withNew matchISODateCore
    ("NumberLong(".toList ++ '\'' :: (t ++ ['\'', ')'])) = none from rfl]
  rw [show withNew matchDateCore
    ("NumberLong(".toList ++ '\'' :: (t ++ ['\'', ')'])) = none from rfl]
  rw [hw]
  rfl

/-! ## C6 support: `convertToJson` on a whole constructor literal -/

theorem convertToJson_oid (s : List Char) (hne : s ≠ [])
    (hq : ∀ c ∈ s, isQuoteCh c = false) :
    convertToJson (ctorLit ("ObjectId(".toList) s) =
      "\x7b\"$oid\":\"".toList ++ s ++ "\"\x7d".toList := by
  unfold convertToJson
  rw [show ctorLit ("ObjectId(".toList) s =
    'O' :: ("bjectId(".toList ++ '\'' :: (s ++ ['\'', ')'])) from rfl]
  rw [show ('O' :: ("bjectId(".toList ++ '\'' :: (s ++ ['\'', ')']))).length + 1 =
    (s.length + 12) + 1 from by
    simp only [List.length_cons, List.length_append, List.length_nil,
      show ("bjectId(".toList).length = 8 from rfl]
    omega]
  rw [ctjGo_cons]
  rw [if_neg (show ¬('O' = '"') from by decide),
      if_neg (show ¬('O' = '\'') from by decide),
      if_neg (show ¬('O' = '{') from by decide),
      if_neg (show ¬('O' = ',') from by decide)]
  rw [show ('O' :: ("bjectId(".toList ++ '\'' :: (s ++ ['\'', ')']))) =
    ("ObjectId(".toList ++ '\'' :: (s ++ ['\'', ')'])) from rfl]
  rw [tryMatchBson_oid s hne hq]
  simp only []
  rw [show ("ObjectId(".toList ++ '\'' :: (s ++ ['\'', ')'])).drop
      (s.length + 12) = [] from by
    rw [show s.length + 12 =
      ("ObjectId(".toList ++ '\'' :: (s ++ ['\'', ')'])).length from by
      simp only [List.length_cons, List.length_append, List.length_nil,
        show ("ObjectId(".toList).length = 9 from rfl]
      omega]
    exact List.drop_length _]
  rw [show s.length + 12 = (s.length + 11) + 1 from rfl]
  rw [ctjGo_nil, List.append_nil]

theorem convertToJson_isoDate (s : List Char) (hne : s ≠ [])
    (hq : ∀ c ∈ s, isQuoteCh c = false) :
    convertToJson (ctorLit ("ISODate(".toList) s) =
      "\x7b\"$date\":\"".toList ++ s ++ "\"\x7d".toList := by
  unfold convertToJson
  rw [show ctorLit ("ISODate(".toList) s =
    'I' :: ("SODate(".toList ++ '\'' :: (s ++ ['\'', ')'])) from rfl]
  rw [show ('I' :: ("SODate(".toList ++ '\'' :: (s ++ ['\'', ')']))).length + 1 =
    (s.length + 11) + 1 from by
    simp only [List.length_cons, List.length_append, List.length_nil,
      show ("SODate(".toList).length = 7 from rfl]
    omega]
  rw [ctjGo_cons]
  rw [if_neg (show ¬('I' = '"') from by decide),
      if_neg (show ¬('I' = '\'') from by decide),
      if_neg (show ¬('I' = '{') from by decide),
      if_neg (show ¬('I' = ',') from by decide)]
  rw [show ('I' :: ("SODate(".toList ++ '\'' :: (s ++ ['\'', ')']))) =
    ("ISODate(".toList ++ '\'' :: (s ++ ['\'', ')'])) from rfl]
  rw [tryMatchBson_isoDate s hne hq]
  simp only []
  rw [show ("ISODate(".toList ++ '\'' :: (s ++ ['\'', ')'])).drop
      (s.length + 11) = [] from by
    rw [show s.length + 11 =
      ("ISODate(".toList ++ '\'' :: (s ++ ['\'', ')'])).length from by
      simp only [List.length_cons, List.length_append, List.length_nil,
        show ("ISODate(".toList).length = 8 from rfl]
      omega]
    exact List.drop_length _]
  rw [show s.length + 11 = (s.length + 10) + 1 from rfl]
  rw [ctjGo_nil, List.append_nil]

theorem convertToJson_numberLong (t : List Char)
    (ht : matchSignedDigits (t ++ ['\'', ')']) = some (t, ['\'', ')'])) :
    convertToJson (ctorLit ("NumberLong(".toList) t) =
      "\x7b\"$numberLong\":\"".toList ++ t ++ "\"\x7d".toList := by
  unfold convertToJson
  rw [show ctorLit ("NumberLong(".toList) t =
    'N' :: ("umberLong(".toList ++ '\'' :: (t ++ ['\'', ')'])) from rfl]
  rw [show ('N' :: ("umberLong(".toList ++ '\'' ::
      (t ++ ['\'', ')']))).length + 1 = (t.length + 14) + 1 from by
    simp only [List.length_cons, List.length_append, List.length_nil,
      show ("umberLong(".toList).length = 10 from rfl]
    omega]
  rw [ctjGo_cons]
  rw [if_neg (show ¬('N' = '"') from by decide),
      if_neg (show ¬('N' = '\'') from by decide),
      if_neg (show ¬('N' = '{') from by decide),
      if_neg (show ¬('N' = ',') from by decide)]
  rw [show ('N' :: ("umberLong(".toList ++ '\'' :: (t ++ ['\'', ')']))) =
    ("NumberLong(".toList ++ '\'' :: (t ++ ['\'', ')'])) from rfl]
  rw [tryMatchBson_numberLong t ht]
  simp only []
  rw [show ("NumberLong(".toList ++ '\'' :: (t ++ ['\'', ')'])).drop
      (t.length + 14) = [] from by
    rw [show t.length + 14 =
      ("NumberLong(".toList ++ '\'' :: (t ++ ['\'', ')'])).length from by
      simp only [List.length_cons, List.length_append, List.length_nil,
        show ("NumberLong(".toList).length = 11 from rfl]
      omega]
    exact List.drop_length _]
  rw [show t.length + 14 = (t.length + 13) + 1 from rfl]
  rw [ctjGo_nil, List.append_nil]

/-! ## C6 support: the canonical ISO round trip -/

theorem charDigit_digitChar (n : Nat) (h : n ≤ 9) :
    charDigit? (digitChar n) = some n := by
  interval_cases n <;> rfl

theorem parse2_pad2 (n : Nat) (r : List Char) (h : n ≤ 99) :
    parse2 (pad2 n ++ r) = some (n, r) := by
  have h1 := charDigit_digitChar (n / 10) (by omega)
  have h2 := charDigit_digitChar (n % 10) (by omega)
  show (match charDigit? (digitChar (n / 10)), charDigit? (digitChar (n % 10))
    with
    | some x, some y => some (10 * x + y, r)
    | _, _ => none) = some (n, r)
  rw [h1, h2]
  simp only []
  rw [show 10 * (n / 10) + n % 10 = n from by omega]

theorem parse3_pad3 (n : Nat) (r : List Char) (h : n ≤ 999) :
    parse3 (pad3 n ++ r) = some (n, r) := by
  have h1 := charDigit_digitChar (n / 100) (by omega)
  have h2 := charDigit_digitChar (n / 10 % 10) (by omega)
  have h3 := charDigit_digitChar (n % 10) (by omega)
  show (match charDigit? (digitChar (n / 100)), charDigit? (digitChar (n / 10 % 10)),
      charDigit? (digitChar (n % 10)) with
    | some x, some y, some z => some (100 * x + 10 * y + z, r)
    | _, _, _ => none) = some (n, r)
  rw [h1, h2, h3]
  simp only []
  rw [show 100 * (n / 100) + 10 * (n / 10 % 10) + n % 10 = n from by omega]

theorem parse4_pad4 (n : Nat) (r : List Char) (h : n ≤ 9999) :
    parse4 (pad4 n ++ r) = some (n, r) := by
  have h1 := charDigit_digitChar (n / 1000) (by omega)
  have h2 := charDigit_digitChar (n / 100 % 10) (by omega)
  have h3 := charDigit_digitChar (n / 10 % 10) (by omega)
  have h4 := charDigit_digitChar (n % 10) (by omega)
  show (match charDigit? (digitChar (n / 1000)), charDigit? (digitChar (n / 100 % 10)),
      charDigit? (digitChar (n / 10 % 10)), charDigit? (digitChar (n % 10)) with
    | some x, some y, some z, some w => some (1000 * x + 100 * y + 10 * z + w, r)
    | _, _, _, _ => none) = some (n, r)
  rw [h1, h2, h3, h4]
  simp only []
  rw [show 1000 * (n / 1000) + 100 * (n / 100 % 10) + 10 * (n / 10 % 10) +
    n % 10 = n from by omega]

theorem daysInMonth_le (y m : Nat) : daysInMonth y m ≤ 31 := by
  unfold daysInMonth
  split
  · split <;> omega
  · split <;> omega

/-- A valid date survives the `toISOString` / `new Date` round trip. -/
theorem jsDateParse_dateToIso (p : DateParts) (hv : validParts p) :
    jsDateParse (dateToIso p) = .valid p := by
  obtain ⟨y, mo, dd, hh, mi, sec, ms⟩ := p
  obtain ⟨h1, h2, h3, h4, h5, h6, h7, h8, h9⟩ := hv
  have hdle : daysInMonth y mo ≤ 31 := daysInMonth_le y mo
  unfold jsDateParse
  rw [show dateToIso ⟨y, mo, dd, hh, mi, sec, ms⟩ =
    pad4 y ++ '-' :: (pad2 mo ++ '-' :: (pad2 dd ++ 'T' :: (pad2 hh ++ ':' ::
      (pad2 mi ++ ':' :: (pad2 sec ++ '.' :: (pad3 ms ++ ['Z'])))))) from rfl]
  rw [parse4_pad4 y _ (by simp at h8; omega)]
  simp only []
  rw [parse2_pad2 mo _ (by simp at h2; omega)]
  simp only []
  rw [parse2_pad2 dd _ (by simp at h4 hdle; omega)]
  simp only []
  rw [parse2_pad2 hh _ (by simp at h5; omega)]
  simp only []
  rw [parse2_pad2 mi _ (by simp at h6; omega)]
  simp only []
  rw [parse2_pad2 sec _ (by simp at h7; omega)]
  simp only []
  rw [parse3_pad3 ms _ (by simp at h9; omega)]
  simp only []
  unfold mkDate
  simp only []
  rw [if_pos (show validParts ⟨y, mo, dd, hh, mi, sec, ms⟩ from
    ⟨h1, h2, h3, h4, h5, h6, h7, h8, h9⟩)]

/-! ## C6 support: decimal digit strings and `Long` round trip -/

theorem contains_char_iff_mem (l : List Char) (a : Char) :
    l.contains a = true ↔ a ∈ l := by
  simp [List.contains, List.elem_iff]

theorem digitChar_isDigit (n : Nat) : (digitChar n).isDigit = true := by
  unfold digitChar
  split <;> decide

theorem digitChar_toNat (n : Nat) (h : n ≤ 9) : (digitChar n).toNat = 48 + n := by
  interval_cases n <;> rfl

theorem digit_not_ws (c : Char) (h : c.isDigit = true) : isJsWs c = false :=
  word_not_ws c (by simp [isWordChar, h])

theorem digitsToNat_from (l : List Char) : ∀ a : Nat,
    l.foldl (fun x c => 10 * x + (c.toNat - 48)) a =
      a * 10 ^ l.length + digitsToNat l := by
  induction l with
  | nil => intro a; simp [digitsToNat]
  | cons c t ih =>
    intro a
    show t.foldl (fun x c => 10 * x + (c.toNat - 48)) (10 * a + (c.toNat - 48)) =
      _
    rw [ih (10 * a + (c.toNat - 48))]
    rw [show digitsToNat (c :: t) =
      t.foldl (fun x c => 10 * x + (c.toNat - 48)) (10 * 0 + (c.toNat - 48))
      from rfl]
    rw [ih (10 * 0 + (c.toNat - 48))]
    simp only [List.length_cons, pow_succ]
    ring

theorem digitsToNat_append (a b : List Char) :
    digitsToNat (a ++ b) = digitsToNat a * 10 ^ b.length + digitsToNat b := by
  show (a ++ b).foldl (fun x c => 10 * x + (c.toNat - 48)) 0 = _
  rw [List.foldl_append]
  rw [digitsToNat_from b (a.foldl (fun x c => 10 * x + (c.toNat - 48)) 0)]
  rfl

theorem natDecAux_spec : ∀ (fuel n : Nat) (acc : List Char), n < fuel →
    ∃ ds, natDecAux fuel n acc = ds ++ acc ∧ ds ≠ [] ∧
      (∀ c ∈ ds, c.isDigit = true) ∧ digitsToNat ds = n := by
  intro fuel
  induction fuel with
  | zero => intro n acc h; omega
  | succ f ih =>
    intro n acc h
    have hstep : natDecAux (f + 1) n acc =
        if n < 10 then digitChar n :: acc
        else natDecAux f (n / 10) (digitChar (n % 10) :: acc) := rfl
    by_cases hn : n < 10
    · refine ⟨[digitChar n], ?_, by simp, ?_, ?_⟩
      · rw [hstep, if_pos hn]; rfl
      · intro c hc
        simp only [List.mem_singleton] at hc
        rw [hc]; exact digitChar_isDigit n
      · show digitsToNat [digitChar n] = n
        unfold digitsToNat
        show 10 * 0 + ((digitChar n).toNat - 48) = n
        rw [digitChar_toNat n (by omega)]
        omega
    · obtain ⟨ds, hds, hne, hdig, hval⟩ :=
        ih (n / 10) (digitChar (n % 10) :: acc) (by omega)
      refine ⟨ds ++ [digitChar (n % 10)], ?_, by simp, ?_, ?_⟩
      · rw [hstep, if_neg hn, hds]
        simp [List.append_assoc]
      · intro c hc
        rcases List.mem_append.mp hc with h1 | h1
        · exact hdig c h1
        · simp only [List.mem_singleton] at h1
          rw [h1]; exact digitChar_isDigit _
      · rw [digitsToNat_append]
        rw [show digitsToNat [digitChar (n % 10)] = n % 10 from by
          unfold digitsToNat
          show 10 * 0 + ((digitChar (n % 10)).toNat - 48) = n % 10
          rw [digitChar_toNat _ (by omega)]
          omega]
        rw [show ([digitChar (n % 10)] : List Char).length = 1 from rfl]
        rw [hval, pow_one]
        omega

theorem natDec_spec (n : Nat) : natDec n ≠ [] ∧
    (∀ c ∈ natDec n, c.isDigit = true) ∧ digitsToNat (natDec n) = n := by
  obtain ⟨ds, hds, hne, hdig, hval⟩ := natDecAux_spec (n + 1) n [] (by omega)
  unfold natDec
  rw [hds, List.append_nil]
  exact ⟨hne, hdig, hval⟩

theorem parseIntLead_digits (ds : List Char) (hne : ds ≠ [])
    (hd : ∀ c ∈ ds, c.isDigit = true) :
    parseIntLead ds = some ((digitsToNat ds : Int)) := by
  obtain ⟨d, dt, rfl⟩ : ∃ d dt, ds = d :: dt := by
    cases ds with
    | nil => exact absurd rfl hne
    | cons d dt => exact ⟨d, dt, rfl⟩
  have hd0 := hd d (List.mem_cons_self _ _)
  have hplus : ¬(d = '+') := fun he => by
    rw [he] at hd0; exact absurd hd0 (by decide)
  have hminus : ¬(d = '-') := fun he => by
    rw [he] at hd0; exact absurd hd0 (by decide)
  unfold parseIntLead
  rw [show (d :: dt : List Char).dropWhile isJsWs = d :: dt from
    dropWhile_cons_of_neg isJsWs d dt (digit_not_ws d hd0)]
  simp only [decide_eq_false hplus, decide_eq_false hminus, Bool.or_false,
    Bool.false_eq_true, if_false]
  rw [takeWhile_all Char.isDigit (d :: dt) hd]
  rw [if_neg (show ¬((d :: dt : List Char) = []) from by simp)]
  simp

theorem longChunksGo_digits : ∀ (fuel : Nat) (ds : List Char) (acc : Nat),
    (∀ c ∈ ds, c.isDigit = true) → ds.length ≤ 8 * fuel →
    acc * 10 ^ ds.length + digitsToNat ds < 2 ^ 64 →
    longChunksGo fuel ds (acc : Int) =
      ((acc * 10 ^ ds.length + digitsToNat ds : Nat) : Int) := by
  intro fuel
  induction fuel with
  | zero =>
    intro ds acc hd hlen hb
    have hnil : ds = [] := List.length_eq_zero.mp (by omega)
    subst hnil
    show (acc : Int) = _
    simp [digitsToNat]
  | succ f ih =>
    intro ds acc hd hlen hb
    cases ds with
    | nil =>
      show (acc : Int) = _
      simp [digitsToNat]
    | cons c t =>
      have hsplit : (c :: t : List Char) =
          (c :: t).take 8 ++ (c :: t).drop 8 :=
        (List.take_append_drop 8 (c :: t)).symm
      have hchne : (c :: t).take 8 ≠ [] := by
        rw [show (c :: t).take 8 = c :: t.take 7 from rfl]
        simp
      have hchd : ∀ x ∈ (c :: t).take 8, x.isDigit = true := fun x hx =>
        hd x (by rw [hsplit]; exact List.mem_append_left _ hx)
      have hrd : ∀ x ∈ (c :: t).drop 8, x.isDigit = true := fun x hx =>
        hd x (by rw [hsplit]; exact List.mem_append_right _ hx)
      have hlensum : ((c :: t).take 8).length + ((c :: t).drop 8).length =
          (c :: t).length := by
        rw [← List.length_append, List.take_append_drop]
      have hkey : digitsToNat (c :: t) =
          digitsToNat ((c :: t).take 8) * 10 ^ ((c :: t).drop 8).length +
            digitsToNat ((c :: t).drop 8) := by
        conv_lhs => rw [hsplit]
        exact digitsToNat_append _ _
      have hpl : parseIntLead ((c :: t).take 8) =
          some ((digitsToNat ((c :: t).take 8) : Int)) :=
        parseIntLead_digits _ hchne hchd
      have hacc' : (acc * 10 ^ ((c :: t).take 8).length +
          digitsToNat ((c :: t).take 8)) * 10 ^ ((c :: t).drop 8).length +
          digitsToNat ((c :: t).drop 8) < 2 ^ 64 := by
        calc (acc * 10 ^ ((c :: t).take 8).length +
            digitsToNat ((c :: t).take 8)) * 10 ^ ((c :: t).drop 8).length +
            digitsToNat ((c :: t).drop 8)
            = acc * 10 ^ (c :: t).length + digitsToNat (c :: t) := by
              rw [hkey, ← hlensum, pow_add]; ring
          _ < 2 ^ 64 := hb
      have hlt : acc * 10 ^ ((c :: t).take 8).length +
          digitsToNat ((c :: t).take 8) < 2 ^ 64 := by
        have h10 : 1 ≤ 10 ^ ((c :: t).drop 8).length :=
          Nat.one_le_pow _ _ (by omega)
        nlinarith [hacc']
      have hu : u64 ((acc : Int) * 10 ^ ((c :: t).take 8).length +
          ((digitsToNat ((c :: t).take 8) : Nat) : Int)) =
          ((acc * 10 ^ ((c :: t).take 8).length +
            digitsToNat ((c :: t).take 8) : Nat) : Int) := by
        unfold u64
        have hcast : ((acc * 10 ^ ((c :: t).take 8).length +
            digitsToNat ((c :: t).take 8) : Nat) : Int) =
            (acc : Int) * 10 ^ ((c :: t).take 8).length +
              ((digitsToNat ((c :: t).take 8) : Nat) : Int) := by
          push_cast; ring
        rw [← hcast]
        refine Int.emod_eq_of_lt (by positivity) ?_
        exact_mod_cast hlt
      rw [show longChunksGo (f + 1) (c :: t) (acc : Int) =
        longChunksGo f ((c :: t).drop 8)
          (u64 ((acc : Int) * 10 ^ ((c :: t).take 8).length +
            ((parseIntLead ((c :: t).take 8)).getD 0))) from rfl]
      rw [hpl]
      rw [show (some ((digitsToNat ((c :: t).take 8) : Nat) : Int)).getD 0 =
        ((digitsToNat ((c :: t).take 8) : Nat) : Int) from rfl]
      rw [hu]
      rw [ih ((c :: t).drop 8) (acc * 10 ^ ((c :: t).take 8).length +
        digitsToNat ((c :: t).take 8)) hrd (by
          have hdl : ((c :: t).drop 8).length = (c :: t).length - 8 := by
            simp [List.length_drop]
          omega) hacc']
      congr 1
      rw [hkey, ← hlensum, pow_add]
      ring

theorem longFromString_natDec (m : Nat) (hm : m < 2 ^ 64) :
    longFromString (natDec m) = .ok (toSigned64 (m : Int)) := by
  obtain ⟨hne, hdig0, hval0⟩ := natDec_spec m
  obtain ⟨d, dt, hds⟩ : ∃ d dt, natDec m = d :: dt := by
    cases hnd : natDec m with
    | nil => exact absurd hnd hne
    | cons d dt => exact ⟨d, dt, rfl⟩
  rw [hds] at hdig0 hval0 ⊢
  have hd0 : d.isDigit = true := hdig0 d (List.mem_cons_self _ _)
  rw [longFromString.eq_def]
  simp only []
  rw [if_neg (show ¬((d :: dt : List Char) = "NaN".toList ∨
      (d :: dt : List Char) = "Infinity".toList ∨
      (d :: dt : List Char) = "-Infinity".toList ∨
      (d :: dt : List Char) = "+Infinity".toList) from by
    intro hsp
    rcases hsp with h | h | h | h
    · have hh := congrArg (fun l => List.headD l ' ') h
      simp only [List.headD_cons] at hh
      rw [show List.headD ("NaN".toList) ' ' = 'N' from rfl] at hh
      rw [hh] at hd0
      exact absurd hd0 (by decide)
    · have hh := congrArg (fun l => List.headD l ' ') h
      simp only [List.headD_cons] at hh
      rw [show List.headD ("Infinity".toList) ' ' = 'I' from rfl] at hh
      rw [hh] at hd0
      exact absurd hd0 (by decide)
    · have hh := congrArg (fun l => List.headD l ' ') h
      simp only [List.headD_cons] at hh
      rw [show List.headD ("-Infinity".toList) ' ' = '-' from rfl] at hh
      rw [hh] at hd0
      exact absurd hd0 (by decide)
    · have hh := congrArg (fun l => List.headD l ' ') h
      simp only [List.headD_cons] at hh
      rw [show List.headD ("+Infinity".toList) ' ' = '+' from rfl] at hh
      rw [hh] at hd0
      exact absurd hd0 (by decide))]
  split
  · rename_i rest heq
    have h1 : d = '-' := by
      have h2 := congrArg (fun l => List.headD l ' ') heq
      simp only [List.headD_cons] at h2
      first
      | exact h2
      | exact h2.symm
    rw [h1] at hd0
    exact absurd hd0 (by decide)
  · rw [if_neg (show ¬((d :: dt : List Char).contains '-' = true) from by
      intro hc
      have hmem := (contains_char_iff_mem _ _).mp hc
      have := hdig0 '-' hmem
      exact absurd this (by decide))]
    rw [show ((0 : Int)) = ((0 : Nat) : Int) from rfl]
    rw [longChunksGo_digits ((d :: dt).length + 1) (d :: dt) 0 hdig0
      (by omega)
      (by simp only [Nat.zero_mul, Nat.zero_add]; rw [hval0]; exact hm)]
    rw [show (0 : Nat) * 10 ^ (d :: dt : List Char).length +
      digitsToNat (d :: dt) = m from by
      simp only [Nat.zero_mul, Nat.zero_add]; exact hval0]

theorem toSigned64_small (m : Nat) (h : m < 2 ^ 63) :
    toSigned64 (m : Int) = (m : Int) := by
  unfold toSigned64 u64
  rw [show ((2 : Int) ^ 64) = 18446744073709551616 from by norm_num,
      show ((2 : Int) ^ 63) = 9223372036854775808 from by norm_num]
  rw [show (2 : Nat) ^ 63 = 9223372036854775808 from by norm_num] at h
  rw [Int.emod_eq_of_lt (by positivity) (by omega)]
  rw [if_neg (by omega)]

theorem toSigned64_eq (x : Int) :
    toSigned64 x =
      if (2 : Int) ^ 63 ≤ x % 2 ^ 64 then x % 2 ^ 64 - 2 ^ 64
      else x % 2 ^ 64 := rfl

theorem toSigned64_negSmall (m : Nat) (h1 : 0 < m) (h2 : m ≤ 2 ^ 63) :
    toSigned64 (-(toSigned64 (m : Int))) = -(m : Int) := by
  rw [toSigned64_eq, toSigned64_eq]
  rw [show ((2 : Int) ^ 64) = 18446744073709551616 from by norm_num,
      show ((2 : Int) ^ 63) = 9223372036854775808 from by norm_num]
  rw [show (2 : Nat) ^ 63 = 9223372036854775808 from by norm_num] at h2
  split_ifs <;> omega

theorem longFromString_longToString (n : Int) (h1 : -(2 ^ 63) ≤ n)
    (h2 : n < 2 ^ 63) :
    longFromString (longToString n) = .ok n := by
  rw [show ((2 : Int) ^ 63) = 9223372036854775808 from by norm_num] at h1 h2
  by_cases hn : n < 0
  · rw [show longToString n = '-' :: natDec n.natAbs from by
      unfold longToString; rw [if_pos hn]]
    obtain ⟨hne, hdig, hval⟩ := natDec_spec n.natAbs
    rw [longFromString.eq_def]
    simp only []
    rw [if_neg (show ¬(('-' :: natDec n.natAbs : List Char) = "NaN".toList ∨
        ('-' :: natDec n.natAbs : List Char) = "Infinity".toList ∨
        ('-' :: natDec n.natAbs : List Char) = "-Infinity".toList ∨
        ('-' :: natDec n.natAbs : List Char) = "+Infinity".toList) from by
      intro hsp
      rcases hsp with h | h | h | h
      · have hh := congrArg (fun l => List.headD l ' ') h
        simp only [List.headD_cons] at hh
        rw [show List.headD ("NaN".toList) ' ' = 'N' from rfl] at hh
        exact absurd hh (by decide)
      · have hh := congrArg (fun l => List.headD l ' ') h
        simp only [List.headD_cons] at hh
        rw [show List.headD ("Infinity".toList) ' ' = 'I' from rfl] at hh
        exact absurd hh (by decide)
      · have ht := congrArg List.tail h
        simp only [List.tail_cons] at ht
        rw [show List.tail ("-Infinity".toList) = "Infinity".toList from rfl]
          at ht
        have hmem : 'I' ∈ natDec n.natAbs := by rw [ht]; decide
        exact absurd (hdig 'I' hmem) (by decide)
      · have hh := congrArg (fun l => List.headD l ' ') h
        simp only [List.headD_cons] at hh
        rw [show List.headD ("+Infinity".toList) ' ' = '+' from rfl] at hh
        exact absurd hh (by decide))]
    try simp only []
    rw [longFromString_natDec n.natAbs (by
      rw [show (2 : Nat) ^ 64 = 18446744073709551616 from by norm_num]
      omega)]
    rw [show Except.map (fun v => toSigned64 (-v))
      (Except.ok (toSigned64 ((n.natAbs : Nat) : Int))) =
      Except.ok (toSigned64 (-(toSigned64 ((n.natAbs : Nat) : Int)))) from rfl]
    rw [toSigned64_negSmall n.natAbs (by omega) (by
      rw [show (2 : Nat) ^ 63 = 9223372036854775808 from by norm_num]
      omega)]
    rw [show -((n.natAbs : Nat) : Int) = n from by omega]
  · rw [show longToString n = natDec n.toNat from by
      unfold longToString; rw [if_neg hn]]
    rw [longFromString_natDec n.toNat (by
      rw [show (2 : Nat) ^ 64 = 18446744073709551616 from by norm_num]
      omega)]
    rw [toSigned64_small n.toNat (by
      rw [show (2 : Nat) ^ 63 = 9223372036854775808 from by norm_num]
      omega)]
    rw [show ((n.toNat : Nat) : Int) = n from by omega]

/-! ## C6 support: full-pipeline materialization of the three constructors -/

theorem parseArguments_oid (s : List Char) (h24 : s.length = 24)
    (hhex : ∀ c ∈ s, isLowerHexCh c = true) :
    parseArguments (ctorLit ("ObjectId(".toList) s) = [.objectId s] := by
  have hbox : ∀ c ∈ s, (¬(c = '"') ∧ ¬(c = '\\') ∧ 32 ≤ c.toNat) ∧
      isQuoteCh c = false := fun c hc => char_box c (by
    rcases lowerHex_box c (hhex c hc) with h | h
    · exact Or.inl h
    · exact Or.inr (Or.inr (Or.inr (Or.inr (Or.inr (Or.inr h))))))
  have hsafe : ∀ c ∈ s, ¬(c = '"') ∧ ¬(c = '\\') ∧ 32 ≤ c.toNat :=
    fun c hc => (hbox c hc).1
  have hq : ∀ c ∈ s, isQuoteCh c = false := fun c hc => (hbox c hc).2
  have hne : s ≠ [] := by
    intro h
    rw [h] at h24
    simp at h24
  have hall : s.all isHexCh = true := by
    rw [List.all_eq_true]
    intro c hc
    exact lowerHex_isHex c (hhex c hc)
  have hlow : jsToLower s = s := by
    unfold jsToLower
    exact (List.map_congr_left fun c hc => lowerHex_toLower c (hhex c hc)).trans
      (List.map_id s)
  have hoid : objectIdFromString s = .ok s := by
    unfold objectIdFromString
    rw [if_pos ⟨h24, hall⟩, hlow]
  have htrim : jsTrim (ctorLit ("ObjectId(".toList) s) =
      ctorLit ("ObjectId(".toList) s := by
    rw [show ctorLit ("ObjectId(".toList) s =
      'O' :: ("bjectId(".toList ++ '\'' :: (s ++ ['\''])) ++ [')'] from by
      unfold ctorLit
      simp [List.append_assoc]]
    exact jsTrim_eq_self 'O' ')' _ (by decide) (by decide)
  have hnonempty : ctorLit ("ObjectId(".toList) s ≠ [] := by
    unfold ctorLit
    simp
  have hE : parseArgumentsE (ctorLit ("ObjectId(".toList) s) =
      .ok [.objectId s] := by
    rw [parseArgumentsE_eq, convertToJson_oid s hne hq]
    rw [show ('[' :: (("\x7b\"$oid\":\"".toList ++ s ++ "\"\x7d".toList) ++ [']'])) =
      ('[' :: '{' :: '"' :: ("$oid".toList ++ '"' :: ':' :: '"' ::
        (s ++ '"' :: '}' :: ']' :: []))) from by
      simp only [List.append_assoc]
      rfl]
    rw [jsonParse_tagged ("$oid".toList) s (by decide) hsafe]
    show ([Json.obj [("$oid".toList, Json.str s)]].mapM fun x =>
      deserializeBsonTypes
        (("\x7b\"$oid\":\"".toList ++ s ++ "\"\x7d".toList).length + 2) x) =
      Except.ok [MValue.objectId s]
    rw [show ("\x7b\"$oid\":\"".toList ++ s ++ "\"\x7d".toList).length + 2 =
      (s.length + 12) + 1 from by
      have hA : ("\x7b\"$oid\":\"".toList).length = 9 := rfl
      have hB : ("\"\x7d".toList).length = 2 := rfl
      simp only [List.length_append, hA, hB]
      omega]
    rw [List.mapM_cons, List.mapM_nil]
    rw [show deserializeBsonTypes ((s.length + 12) + 1)
      (Json.obj [("$oid".toList, Json.str s)]) =
      (objectIdFromString s).map MValue.objectId from rfl]
    rw [hoid]
    rfl
  unfold parseArguments
  rw [htrim, if_neg hnonempty, hE]

theorem parseArguments_isoDate (p : DateParts) (hv : validParts p) :
    parseArguments (ctorLit ("ISODate(".toList) (dateToIso p)) =
      [.date (.valid p)] := by
  have hbox : ∀ c ∈ dateToIso p,
      (¬(c = '"') ∧ ¬(c = '\\') ∧ 32 ≤ c.toNat) ∧ isQuoteCh c = false :=
    fun c hc => char_box c (mem_dateToIso_box p c hc)
  have hsafe : ∀ c ∈ dateToIso p, ¬(c = '"') ∧ ¬(c = '\\') ∧ 32 ≤ c.toNat :=
    fun c hc => (hbox c hc).1
  have hq : ∀ c ∈ dateToIso p, isQuoteCh c = false := fun c hc => (hbox c hc).2
  have hne : dateToIso p ≠ [] := by
    intro h
    have := congrArg List.length h
    simp [dateToIso, pad2, pad3, pad4] at this
  have htrim : jsTrim (ctorLit ("ISODate(".toList) (dateToIso p)) =
      ctorLit ("ISODate(".toList) (dateToIso p) := by
    rw [show ctorLit ("ISODate(".toList) (dateToIso p) =
      'I' :: ("SODate(".toList ++ '\'' :: (dateToIso p ++ ['\''])) ++ [')']
      from by
      unfold ctorLit
      simp [List.append_assoc]]
    exact jsTrim_eq_self 'I' ')' _ (by decide) (by decide)
  have hnonempty : ctorLit ("ISODate(".toList) (dateToIso p) ≠ [] := by
    unfold ctorLit
    simp
  have hE : parseArgumentsE (ctorLit ("ISODate(".toList) (dateToIso p)) =
      .ok [.date (.valid p)] := by
    rw [parseArgumentsE_eq, convertToJson_isoDate (dateToIso p) hne hq]
    rw [show ('[' :: (("\x7b\"$date\":\"".toList ++ dateToIso p ++
        "\"\x7d".toList) ++ [']'])) =
      ('[' :: '{' :: '"' :: ("$date".toList ++ '"' :: ':' :: '"' ::
        (dateToIso p ++ '"' :: '}' :: ']' :: []))) from by
      simp only [List.append_assoc]
      rfl]
    rw [jsonParse_tagged ("$date".toList) (dateToIso p) (by decide) hsafe]
    show ([Json.obj [("$date".toList, Json.str (dateToIso p))]].mapM fun x =>
      deserializeBsonTypes
        (("\x7b\"$date\":\"".toList ++ dateToIso p ++ "\"\x7d".toList).length + 2)
        x) = Except.ok [MValue.date (.valid p)]
    rw [show ("\x7b\"$date\":\"".toList ++ dateToIso p ++
        "\"\x7d".toList).length + 2 = ((dateToIso p).length + 13) + 1 from by
      have hA : ("\x7b\"$date\":\"".toList).length = 10 := rfl
      have hB : ("\"\x7d".toList).length = 2 := rfl
      simp only [List.length_append, hA, hB]
      omega]
    rw [List.mapM_cons, List.mapM_nil]
    rw [show deserializeBsonTypes (((dateToIso p).length + 13) + 1)
      (Json.obj [("$date".toList, Json.str (dateToIso p))]) =
      Except.ok (MValue.date (jsDateParse (dateToIso p))) from rfl]
    rw [jsDateParse_dateToIso p hv]
    rfl
  unfold parseArguments
  rw [htrim, if_neg hnonempty, hE]

theorem parseArguments_numberLong (n : Int) (hn1 : -(2 ^ 63) ≤ n)
    (hn2 : n < 2 ^ 63) :
    parseArguments (ctorLit ("NumberLong(".toList) (longToString n)) =
      [.long n] := by
  have hmem : ∀ c ∈ longToString n,
      48 ≤ c.toNat ∧ c.toNat ≤ 57 ∨ c.toNat = 45 := by
    intro c hc
    by_cases hneg : n < 0
    · rw [show longToString n = '-' :: natDec n.natAbs from by
        unfold longToString; rw [if_pos hneg]] at hc
      rcases List.mem_cons.mp hc with rfl | hc2
      · exact Or.inr rfl
      · exact Or.inl (digit_box c ((natDec_spec n.natAbs).2.1 c hc2))
    · rw [show longToString n = natDec n.toNat from by
        unfold longToString; rw [if_neg hneg]] at hc
      exact Or.inl (digit_box c ((natDec_spec n.toNat).2.1 c hc))
  have hbox : ∀ c ∈ longToString n,
      (¬(c = '"') ∧ ¬(c = '\\') ∧ 32 ≤ c.toNat) ∧ isQuoteCh c = false :=
    fun c hc => char_box c (by
      rcases hmem c hc with h | h
      · exact Or.inl h
      · exact Or.inr (Or.inl h))
  have hsafe : ∀ c ∈ longToString n,
      ¬(c = '"') ∧ ¬(c = '\\') ∧ 32 ≤ c.toNat := fun c hc => (hbox c hc).1
  have hq : ∀ c ∈ longToString n, isQuoteCh c = false :=
    fun c hc => (hbox c hc).2
  have ht : matchSignedDigits (longToString n ++ ['\'', ')']) =
      some (longToString n, ['\'', ')']) := by
    by_cases hneg : n < 0
    · rw [show longToString n = '-' :: natDec n.natAbs from by
        unfold longToString; rw [if_pos hneg]]
      rw [List.cons_append]
      exact matchSignedDigits_neg (natDec n.natAbs) '\'' [')']
        (natDec_spec n.natAbs).1 (natDec_spec n.natAbs).2.1 (by decide)
    · rw [show longToString n = natDec n.toNat from by
        unfold longToString; rw [if_neg hneg]]
      exact matchSignedDigits_pos (natDec n.toNat) '\'' [')']
        (natDec_spec n.toNat).1 (natDec_spec n.toNat).2.1 (by decide)
  have hne : longToString n ≠ [] := by
    by_cases hneg : n < 0
    · rw [show longToString n = '-' :: natDec n.natAbs from by
        unfold longToString; rw [if_pos hneg]]
      simp
    · rw [show longToString n = natDec n.toNat from by
        unfold longToString; rw [if_neg hneg]]
      exact (natDec_spec n.toNat).1
  have htrim : jsTrim (ctorLit ("NumberLong(".toList) (longToString n)) =
      ctorLit ("NumberLong(".toList) (longToString n) := by
    rw [show ctorLit ("NumberLong(".toList) (longToString n) =
      'N' :: ("umberLong(".toList ++ '\'' :: (longToString n ++ ['\''])) ++
        [')'] from by
      unfold ctorLit
      simp [List.append_assoc]]
    exact jsTrim_eq_self 'N' ')' _ (by decide) (by decide)
  have hnonempty : ctorLit ("NumberLong(".toList) (longToString n) ≠ [] := by
    unfold ctorLit
    simp
  have hE : parseArgumentsE (ctorLit ("NumberLong(".toList)
      (longToString n)) = .ok [.long n] := by
    rw [parseArgumentsE_eq, convertToJson_numberLong (longToString n) ht]
    rw [show ('[' :: (("\x7b\"$numberLong\":\"".toList ++ longToString n ++
        "\"\x7d".toList) ++ [']'])) =
      ('[' :: '{' :: '"' :: ("$numberLong".toList ++ '"' :: ':' :: '"' ::
        (longToString n ++ '"' :: '}' :: ']' :: []))) from by
      simp only [List.append_assoc]
      rfl]
    rw [jsonParse_tagged ("$numberLong".toList) (longToString n)
      (by decide) hsafe]
    show ([Json.obj [("$numberLong".toList,
        Json.str (longToString n))]].mapM fun x =>
      deserializeBsonTypes
        (("\x7b\"$numberLong\":\"".toList ++ longToString n ++
          "\"\x7d".toList).length + 2) x) = Except.ok [MValue.long n]
    rw [show ("\x7b\"$numberLong\":\"".toList ++ longToString n ++
        "\"\x7d".toList).length + 2 = ((longToString n).length + 19) + 1 from by
      have hA : ("\x7b\"$numberLong\":\"".toList).length = 16 := rfl
      have hB : ("\"\x7d".toList).length = 2 := rfl
      simp only [List.length_append, hA, hB]
      omega]
    rw [List.mapM_cons, List.mapM_nil]
    rw [show deserializeBsonTypes (((longToString n).length + 19) + 1)
      (Json.obj [("$numberLong".toList, Json.str (longToString n))]) =
      (longFromString (longToString n)).map MValue.long from rfl]
    rw [longFromString_longToString n hn1 hn2]
    rfl
  unfold parseArguments
  rw [htrim, if_neg hnonempty, hE]

/-- **C6 (amended)** — literal round trip on canonical argument spellings:
materializing `ObjectId('h')` for a 24-digit *lowercase* hex string `h`
yields the identifier whose canonical hex form is exactly `h`; materializing
`ISODate('d')` for the canonical ISO-8601 rendering `d` of a valid instant
yields exactly that instant (so its canonical form equals the argument);
materializing `NumberLong('m')` for the canonical decimal rendering `m` of
any signed 64-bit integer yields exactly that integer.  (On non-canonical
arguments — uppercase hex, leading zeros, abbreviated dates — the
constructor still succeeds but the canonical form differs from the
argument.) -/
theorem c6_literal_round_trip_amended :
    (∀ s : List Char, s.length = 24 → (∀ c ∈ s, isLowerHexCh c = true) →
      parseArguments (ctorLit ("ObjectId(".toList) s) = [.objectId s]) ∧
    (∀ p : DateParts, validParts p →
      parseArguments (ctorLit ("ISODate(".toList) (dateToIso p)) =
        [.date (.valid p)]) ∧
    (∀ n : Int, -(2 ^ 63) ≤ n → n < 2 ^ 63 →
      parseArguments (ctorLit ("NumberLong(".toList) (longToString n)) =
        [.long n]) :=
  ⟨parseArguments_oid, parseArguments_isoDate, parseArguments_numberLong⟩

/-- Witness for C6 at concrete canonical inputs: a lowercase hex identifier,
the Christmas-2024 instant, and a negative 64-bit integer beyond double
precision. -/
theorem c6_literal_round_trip_amended_witness :
    parseArguments (ctorLit ("ObjectId(".toList)
        ("507f1f77bcf86cd799439011".toList)) =
      [.objectId ("507f1f77bcf86cd799439011".toList)] ∧
    parseArguments (ctorLit ("ISODate(".toList)
        (dateToIso ⟨2024, 12, 25, 10, 30, 0, 123⟩)) =
      [.date (.valid ⟨2024, 12, 25, 10, 30, 0, 123⟩)] ∧
    parseArguments (ctorLit ("NumberLong(".toList)
        (longToString (-9007199254740993))) = [.long (-9007199254740993)] :=
  ⟨c6_literal_round_trip_amended.1 ("507f1f77bcf86cd799439011".toList)
      (by decide) (by decide),
    c6_literal_round_trip_amended.2.1 ⟨2024, 12, 25, 10, 30, 0, 123⟩
      (by decide),
    c6_literal_round_trip_amended.2.2 (-9007199254740993) (by decide)
      (by decide)⟩

end MongoTs
